import Mathlib

/-!
# Kiingo command center — verification of the seeding tooling and the
# metric snapshot cache / dependency resolution engine

This file embeds, as executable Lean definitions, the database-writing
behaviour of the twenty Python scripts under `scripts/` (nineteen
`seed_*.py` scripts and `bind_discovery_calls_screen.py`), together with
the specified Metric Snapshot Cache & Dependency Resolution Engine
(dependency-graph builder and evaluator), which no script implements and
which is therefore modelled from the specification.

Conventions of the embedding:
* A database state carries the three tables the scripts touch
  (`metric_definitions`, `metric_snapshots`, `screen_metrics`) as lists of
  rows in insertion order; an SQL `INSERT` appends at the tail, a
  `SELECT ... WHERE` with a single expected row is `List.find?`, and a
  `SELECT COUNT(*) ... > 0` is `List.any`.
* Each row carries the columns that the verified properties and the
  engine depend on.  Free-text presentation payloads (`name`,
  `instructions`, `template_html`, `values_json`, `rendered_html`, grid
  geometry) are opaque to every property below and are not transcribed;
  `metadata_json` is represented by its single engine-relevant field, the
  `dependencies` slug list (`[]` for a metadata object without that key).
  A column omitted by a script's `INSERT` statement is `none`.
* `uuid.uuid4()` calls are modelled by an explicit supply `ids : Nat → String`,
  consumed in program order; `datetime.now(...)` by a parameter `now`.
-/

namespace Kiingo

/-- A `metric_definitions` row (engine-relevant columns). -/
structure DefRow where
  id : String
  slug : String
  ttlSeconds : Nat
  enabled : Option Bool
  dependencies : Option (List String)
deriving DecidableEq, Repr

/-- A `metric_snapshots` row (engine-relevant columns). -/
structure SnapRow where
  id : String
  metricId : String
  status : String
  completedAt : Option String
deriving DecidableEq, Repr

/-- A `screen_metrics` row (engine-relevant columns). -/
structure BindRow where
  id : String
  screenId : String
  metricId : String
deriving DecidableEq, Repr

/-- The single-file database state shared by all scripts. -/
structure DB where
  metricDefinitions : List DefRow
  metricSnapshots : List SnapRow
  screenMetrics : List BindRow
deriving DecidableEq, Repr

def DB.empty : DB := ⟨[], [], []⟩

/-- `SELECT COUNT(*) FROM metric_definitions WHERE slug = ?` compared with 0. -/
def DB.slugExists (db : DB) (slug : String) : Bool :=
  db.metricDefinitions.any (fun d => d.slug == slug)

/-- `SELECT id FROM metric_definitions WHERE slug = ?`, first row. -/
def DB.findDefBySlug (db : DB) (slug : String) : Option DefRow :=
  db.metricDefinitions.find? (fun d => d.slug == slug)

/-- `SELECT COUNT(*) FROM screen_metrics WHERE screen_id = ? AND metric_id = ?`
compared with 0. -/
def DB.bindingExists (db : DB) (screenId metricId : String) : Bool :=
  db.screenMetrics.any (fun b => b.screenId == screenId && b.metricId == metricId)

/-- `INSERT INTO screen_metrics` guarded by the binding-existence check, the
shared tail of the fifteen single-metric seed scripts. -/
def DB.bindStep (db : DB) (screenId metricId bindingId : String) : DB :=
  if db.bindingExists screenId metricId then db
  else { db with screenMetrics := db.screenMetrics ++ [⟨bindingId, screenId, metricId⟩] }

/-- What one seed script says about one metric: the engine-relevant fields of
the per-metric dictionaries (multi-metric scripts) or module constants
(single-metric scripts). -/
structure MetricSpec where
  slug : String
  screenId : String
  ttl : Nat
  dependencies : List String
deriving DecidableEq, Repr

/-- `main()` of the fifteen single-metric seed scripts
(`seed_revenue_overview.py` and its siblings): skip-or-insert the
definition and its initial snapshot, then bind to the screen if not
already bound. -/
def runSingleSeed (cfg : MetricSpec) (ids : Nat → String) (now : String) (db : DB) : DB :=
  match db.findDefBySlug cfg.slug with
  | some d => db.bindStep cfg.screenId d.id (ids 0)
  | none =>
      let metricId := ids 0
      let db' : DB :=
        { db with
          metricDefinitions :=
            db.metricDefinitions ++ [⟨metricId, cfg.slug, cfg.ttl, some true, some cfg.dependencies⟩],
          metricSnapshots :=
            db.metricSnapshots ++ [⟨ids 1, metricId, "completed", some now⟩] }
      db'.bindStep cfg.screenId metricId (ids 2)

/-- The two row styles used by the multi-metric scripts:
`standard` (seed_discovery_calls, seed_ceo_dashboard, batch2) writes
`enabled = 1`, the metadata object and a `'completed'` snapshot with
`completed_at`; `batch3` (seed_ceo_dashboard_batch3) omits the `enabled`
and `metadata_json` columns and writes a `'success'` snapshot without
`completed_at`. -/
inductive SeedStyle where
  | standard
  | batch3
deriving DecidableEq, Repr

def insertMetric (style : SeedStyle) (m : MetricSpec)
    (metricId snapshotId bindingId now : String) (db : DB) : DB :=
  match style with
  | .standard =>
      { db with
        metricDefinitions :=
          db.metricDefinitions ++ [⟨metricId, m.slug, m.ttl, some true, some m.dependencies⟩],
        metricSnapshots :=
          db.metricSnapshots ++ [⟨snapshotId, metricId, "completed", some now⟩],
        screenMetrics :=
          db.screenMetrics ++ [⟨bindingId, m.screenId, metricId⟩] }
  | .batch3 =>
      { db with
        metricDefinitions :=
          db.metricDefinitions ++ [⟨metricId, m.slug, m.ttl, none, none⟩],
        metricSnapshots :=
          db.metricSnapshots ++ [⟨snapshotId, metricId, "success", none⟩],
        screenMetrics :=
          db.screenMetrics ++ [⟨bindingId, m.screenId, metricId⟩] }

/-- The `for m in metrics:` loop of the four multi-metric seed scripts:
skip when the slug exists, otherwise insert definition, snapshot and
binding with three fresh ids. -/
def runMetricLoop (style : SeedStyle) (ids : Nat → String) (now : String) :
    List MetricSpec → Nat → DB → DB × Nat
  | [], c, db => (db, c)
  | m :: rest, c, db =>
      if db.slugExists m.slug then runMetricLoop style ids now rest c db
      else
        runMetricLoop style ids now rest (c + 3)
          (insertMetric style m (ids c) (ids (c + 1)) (ids (c + 2)) now db)

/-- A rebinding request by hardcoded metric id (seed_ceo_dashboard's
`rebindings`, driven by its `EXISTING` id table). -/
structure IdRebinding where
  screenId : String
  metricId : String
deriving DecidableEq, Repr

/-- seed_ceo_dashboard's rebinding loop: a binding id is drawn before the
existence check, and the insert is guarded by that check. -/
def runRebindChecked (ids : Nat → String) :
    List IdRebinding → Nat → DB → DB × Nat
  | [], c, db => (db, c)
  | rb :: rest, c, db =>
      if db.bindingExists rb.screenId rb.metricId then
        runRebindChecked ids rest (c + 1) db
      else
        runRebindChecked ids rest (c + 1)
          { db with screenMetrics := db.screenMetrics ++ [⟨ids c, rb.screenId, rb.metricId⟩] }

/-- A rebinding request by slug (seed_ceo_dashboard_batch3's `rebindings`). -/
structure SlugRebinding where
  screenId : String
  slug : String
deriving DecidableEq, Repr

/-- seed_ceo_dashboard_batch3's rebinding loop: resolve the slug; if it
resolves, insert the binding unconditionally (no existence check). -/
def runRebindUnchecked (ids : Nat → String) :
    List SlugRebinding → Nat → DB → DB × Nat
  | [], c, db => (db, c)
  | rb :: rest, c, db =>
      match db.findDefBySlug rb.slug with
      | none => runRebindUnchecked ids rest c db
      | some d =>
          runRebindUnchecked ids rest (c + 1)
            { db with screenMetrics := db.screenMetrics ++ [⟨ids c, rb.screenId, d.id⟩] }

/-- One entry of `BINDINGS` in bind_discovery_calls_screen.py. -/
structure BindSpec where
  slug : String
  screenId : String
deriving DecidableEq, Repr

/-- `main()` of bind_discovery_calls_screen.py: resolve each slug, skip when
missing or already bound, otherwise insert the binding. -/
def runBindScreen (ids : Nat → String) :
    List BindSpec → Nat → DB → DB × Nat
  | [], c, db => (db, c)
  | b :: rest, c, db =>
      match db.findDefBySlug b.slug with
      | none => runBindScreen ids rest c db
      | some d =>
          if db.bindingExists b.screenId d.id then runBindScreen ids rest c db
          else
            runBindScreen ids rest (c + 1)
              { db with screenMetrics := db.screenMetrics ++ [⟨ids c, b.screenId, d.id⟩] }

/-! ## Per-script data, transcribed from the sources -/

/-- seed_discovery_calls.py: its `metrics` list. -/
def discoveryCallsMetrics : List MetricSpec :=
  [ ⟨"trailing-discovery-calls", "pipeline", 3600, []⟩,
    ⟨"discovery-call-summary", "pipeline", 3600,
      ["trailing-discovery-calls", "sales-pipeline-value"]⟩ ]

/-- seed_ceo_dashboard.py: its `metrics` list, in file order. -/
def ceoDashboardMetrics : List MetricSpec :=
  [ ⟨"ceo-pulse", "dashboard", 86400, []⟩,
    ⟨"revenue-profit-trend", "dashboard", 86400, []⟩,
    ⟨"pipeline-by-product", "dashboard", 86400, []⟩,
    ⟨"cash-collections-summary", "dashboard", 86400, []⟩,
    ⟨"revenue-growth-rate", "growth", 86400, []⟩,
    ⟨"deal-creation-velocity", "growth", 86400, []⟩,
    ⟨"win-rate-trend", "growth", 86400, []⟩,
    ⟨"margin-analysis", "efficiency", 86400, []⟩,
    ⟨"collection-efficiency", "efficiency", 86400, []⟩,
    ⟨"operating-leverage", "efficiency", 86400, []⟩,
    ⟨"deal-funnel-stage", "pipeline", 86400, []⟩,
    ⟨"deal-metrics", "pipeline", 86400, []⟩,
    ⟨"lead-pipeline-overview", "leads-gtm", 86400, []⟩,
    ⟨"sales-scorecard", "dept-sales", 86400, []⟩,
    ⟨"bootcamp-operations", "dept-operations", 86400, []⟩,
    ⟨"top-customers-revenue", "dept-sales", 86400, []⟩ ]

/-- seed_ceo_dashboard.py: the `EXISTING` table of metrics assumed to be
already present in the target database (slug, hardcoded id). -/
def ceoExisting : List (String × String) :=
  [ ("monthly-revenue", "35231c42-b088-4da4-b2f2-f25ebce87e36"),
    ("monthly-net-income", "6353801b-e51e-491d-ab5e-a780ed36b62a"),
    ("sales-pipeline-value", "6978d569-0b74-452b-b3e7-5de51c90d239"),
    ("closed-won-monthly", "93ba384c-b172-4072-9e74-c4705f38c349"),
    ("cash-position-ar", "53ac482e-61fd-4faf-9cd2-829ea591372d"),
    ("trailing-30-day-leads", "7c765544-15a4-4c66-a458-1f5db331f2f8") ]

/-- seed_ceo_dashboard.py: its `rebindings` list (screen, `EXISTING` id). -/
def ceoRebindings : List IdRebinding :=
  [ ⟨"growth", "35231c42-b088-4da4-b2f2-f25ebce87e36"⟩,
    ⟨"growth", "93ba384c-b172-4072-9e74-c4705f38c349"⟩,
    ⟨"pipeline", "6978d569-0b74-452b-b3e7-5de51c90d239"⟩,
    ⟨"efficiency", "53ac482e-61fd-4faf-9cd2-829ea591372d"⟩,
    ⟨"leads-gtm", "7c765544-15a4-4c66-a458-1f5db331f2f8"⟩,
    ⟨"dept-sales", "6978d569-0b74-452b-b3e7-5de51c90d239"⟩ ]

/-- seed_ceo_dashboard_batch2.py: its `metrics` list. -/
def batch2Metrics : List MetricSpec :=
  [ ⟨"team-workload", "team-scorecard", 43200, []⟩,
    ⟨"quarterly-rocks-progress", "team-rocks", 43200, []⟩,
    ⟨"marketing-initiatives", "dept-marketing", 43200, []⟩,
    ⟨"active-client-projects", "client-health", 43200, []⟩,
    ⟨"bootcamp-pipeline", "path1-bootcamps", 86400, []⟩,
    ⟨"engineering-projects", "dept-engineering", 43200, []⟩ ]

/-- seed_ceo_dashboard_batch3.py: its `metrics` list. -/
def batch3Metrics : List MetricSpec :=
  [ ⟨"client-revenue-roi", "client-roi", 86400, []⟩,
    ⟨"client-journey-funnel", "client-journey", 86400, []⟩,
    ⟨"champion-group-metrics", "path1-champions", 86400, []⟩,
    ⟨"accelerator-overview", "path1-accelerator", 86400, []⟩,
    ⟨"ai-resource-pipeline", "path2-pipeline", 86400, []⟩,
    ⟨"deployed-engagements", "path2-deployed", 86400, []⟩,
    ⟨"fde-utilization", "path2-fde", 86400, []⟩ ]

/-- seed_ceo_dashboard_batch3.py: its `rebindings` list (screen, slug). -/
def batch3Rebindings : List SlugRebinding :=
  [ ⟨"client-roi", "top-customers-revenue"⟩,
    ⟨"client-journey", "deal-funnel-stage"⟩ ]

/-- bind_discovery_calls_screen.py: its `BINDINGS` list. -/
def discoveryScreenBindings : List BindSpec :=
  [ ⟨"discovery-call-summary", "discovery-calls"⟩,
    ⟨"trailing-discovery-calls", "discovery-calls"⟩ ]

/-- The twenty scripts of the repository. -/
inductive Script where
  | bindDiscoveryCallsScreen
  | seedBootcampDeliveryVolume
  | seedBootcampLearnerEngagement
  | seedBootcampPipeline
  | seedCeoDashboard
  | seedCeoDashboardBatch2
  | seedCeoDashboardBatch3
  | seedCohortCompletionVelocity
  | seedDiscoveryCalls
  | seedFullInstructorCoverage
  | seedInstructorWorkload
  | seedMarketingScorecard
  | seedOpsFollowupTrends
  | seedRevenueOverview
  | seedRevenueTracker
  | seedSalesFollowupSnapshot
  | seedSalesResponseRate
  | seedSalesScorecard
  | seedTrailingFollowupCalls
  | seedUpcomingCohortCalendar
deriving DecidableEq, Repr

/-- The module constants of each single-metric seed script
(`SLUG`, `SCREEN_ID`, the `ttl_seconds` literal, the metadata
dependencies). -/
def Script.singleConfig : Script → Option MetricSpec
  | .seedBootcampDeliveryVolume => some ⟨"bootcamp-delivery-volume", "dept-operations", 86400, []⟩
  | .seedBootcampLearnerEngagement => some ⟨"bootcamp-learner-engagement", "dept-operations", 43200, []⟩
  | .seedBootcampPipeline => some ⟨"bootcamp-pipeline", "dept-operations", 86400, []⟩
  | .seedCohortCompletionVelocity => some ⟨"cohort-completion-velocity", "dept-operations", 86400, []⟩
  | .seedFullInstructorCoverage => some ⟨"full-instructor-coverage", "dept-operations", 43200, []⟩
  | .seedInstructorWorkload => some ⟨"instructor-workload", "dept-operations", 43200, []⟩
  | .seedMarketingScorecard => some ⟨"marketing-scorecard", "ceo-dashboard", 259200, []⟩
  | .seedOpsFollowupTrends => some ⟨"ops-followup-trends", "ops-followup", 86400, []⟩
  | .seedRevenueOverview =>
      some ⟨"revenue-overview", "revenue", 259200, ["monthly-revenue-tracker", "monthly-revenue"]⟩
  | .seedRevenueTracker => some ⟨"monthly-revenue-tracker", "revenue", 259200, []⟩
  | .seedSalesFollowupSnapshot => some ⟨"sales-followup-snapshot", "dept-sales", 86400, []⟩
  | .seedSalesResponseRate => some ⟨"sales-response-rate", "sales-followup", 86400, []⟩
  | .seedSalesScorecard => some ⟨"sales-scorecard", "ceo-dashboard", 259200, []⟩
  | .seedTrailingFollowupCalls => some ⟨"trailing-followup-calls", "follow-up-calls", 3600, []⟩
  | .seedUpcomingCohortCalendar => some ⟨"upcoming-cohort-calendar", "dept-operations", 43200, []⟩
  | _ => none

/-- The `metrics` list of each multi-metric seed script, with its row style. -/
def Script.loopConfig : Script → Option (SeedStyle × List MetricSpec)
  | .seedDiscoveryCalls => some (.standard, discoveryCallsMetrics)
  | .seedCeoDashboard => some (.standard, ceoDashboardMetrics)
  | .seedCeoDashboardBatch2 => some (.standard, batch2Metrics)
  | .seedCeoDashboardBatch3 => some (.batch3, batch3Metrics)
  | _ => none

/-- The database-writing behaviour of each script's entry point
(`main()`, or `run()` for batch3), as a transition on the database state. -/
def Script.run (s : Script) (ids : Nat → String) (now : String) (db : DB) : DB :=
  match s with
  | .bindDiscoveryCallsScreen => (runBindScreen ids discoveryScreenBindings 0 db).1
  | .seedDiscoveryCalls => (runMetricLoop .standard ids now discoveryCallsMetrics 0 db).1
  | .seedCeoDashboardBatch2 => (runMetricLoop .standard ids now batch2Metrics 0 db).1
  | .seedCeoDashboard =>
      let p := runMetricLoop .standard ids now ceoDashboardMetrics 0 db
      (runRebindChecked ids ceoRebindings p.2 p.1).1
  | .seedCeoDashboardBatch3 =>
      let p := runMetricLoop .batch3 ids now batch3Metrics 0 db
      (runRebindUnchecked ids batch3Rebindings p.2 p.1).1
  | s =>
      match s.singleConfig with
      | some cfg => runSingleSeed cfg ids now db
      | none => db

/-- The expanduser argument of the module-level `DB_PATH` constant of each
script. -/
def Script.dbPath : Script → String
  | _ => "~/Library/Application Support/com.kiingo.localcli/state.sqlite"

/-- The busy-timeout `PRAGMA`, in milliseconds, that the script issues on its
connection right after `sqlite3.connect`, when it issues one. -/
def Script.busyTimeout : Script → Option Nat
  | .seedBootcampDeliveryVolume => some 5000
  | .seedBootcampLearnerEngagement => some 5000
  | .seedBootcampPipeline => some 5000
  | .seedCohortCompletionVelocity => some 5000
  | .seedFullInstructorCoverage => some 5000
  | .seedInstructorWorkload => some 5000
  | .seedMarketingScorecard => some 5000
  | .seedOpsFollowupTrends => some 5000
  | .seedRevenueOverview => some 5000
  | .seedRevenueTracker => some 5000
  | .seedSalesFollowupSnapshot => some 5000
  | .seedSalesResponseRate => some 5000
  | .seedSalesScorecard => some 5000
  | .seedUpcomingCohortCalendar => some 5000
  | _ => none

/-- The nineteen seeding scripts (bind_discovery_calls_screen.py only binds). -/
def Script.isSeedScript (s : Script) : Bool :=
  s != .bindDiscoveryCallsScreen

/-- All metric specifications written by the nineteen seed scripts. -/
def allSeedMetricSpecs : List MetricSpec :=
  ceoDashboardMetrics ++ batch2Metrics ++ batch3Metrics ++ discoveryCallsMetrics ++
    [ ⟨"bootcamp-delivery-volume", "dept-operations", 86400, []⟩,
      ⟨"bootcamp-learner-engagement", "dept-operations", 43200, []⟩,
      ⟨"bootcamp-pipeline", "dept-operations", 86400, []⟩,
      ⟨"cohort-completion-velocity", "dept-operations", 86400, []⟩,
      ⟨"full-instructor-coverage", "dept-operations", 43200, []⟩,
      ⟨"instructor-workload", "dept-operations", 43200, []⟩,
      ⟨"marketing-scorecard", "ceo-dashboard", 259200, []⟩,
      ⟨"ops-followup-trends", "ops-followup", 86400, []⟩,
      ⟨"revenue-overview", "revenue", 259200, ["monthly-revenue-tracker", "monthly-revenue"]⟩,
      ⟨"monthly-revenue-tracker", "revenue", 259200, []⟩,
      ⟨"sales-followup-snapshot", "dept-sales", 86400, []⟩,
      ⟨"sales-response-rate", "sales-followup", 86400, []⟩,
      ⟨"sales-scorecard", "ceo-dashboard", 259200, []⟩,
      ⟨"trailing-followup-calls", "follow-up-calls", 3600, []⟩,
      ⟨"upcoming-cohort-calendar", "dept-operations", 43200, []⟩ ]

/-- The slugs whose metric definitions the repository's scripts themselves
create. -/
def scriptCreatedSlugs : List String :=
  allSeedMetricSpecs.map (fun m => m.slug)

/-- Every dependency slug occurring in a `dependencies` array written by a
seed script. -/
def writtenDependencySlugs : List String :=
  allSeedMetricSpecs.flatMap (fun m => m.dependencies)

/-! ## The Metric Snapshot Cache & Dependency Resolution Engine
(modelled from the spec: no script implements it). -/

/-- Modelled from the spec: the `MetricDefinition` record of §3 (the engine's
view of a `metric_definitions` row). -/
structure MetricDefinition where
  slug : String
  ttlSeconds : Nat
  dependencies : List String
  enabled : Bool
deriving DecidableEq, Repr

def slugsOf (defs : List MetricDefinition) : List String :=
  defs.map (fun d => d.slug)

def findMetricDef (defs : List MetricDefinition) (s : String) : Option MetricDefinition :=
  defs.find? (fun d => d.slug == s)

/-- Modelled from the spec: the registration-time error taxonomy of §7 for the
Dependency Graph Builder. -/
inductive BuildError where
  | dependencyNotFound (consumer dependency : String)
  | cycleDetected (slugs : List String)
deriving DecidableEq, Repr

/-- Slugs not yet on the DFS path: the measure that bounds the traversal's
descent depth. -/
def whiteCount (defs : List MetricDefinition) (gray : List String) : Nat :=
  ((slugsOf defs).filter (fun s => decide (s ∉ gray))).length

/-- Modelled from the spec: the builder's depth-first traversal with
three-color marking (§4.1).  `gray` is the path of in-progress slugs
(most recent first) and `acc` the emitted postorder (doubling as the
black set).  A gray hit reports the cycle's slugs in traversal order; an
unknown slug reports `dependencyNotFound` at build time.  The descent is
fuelled explicitly to make it structurally recursive; the fuel case is
unreachable at the fuel `buildOrder` supplies, since the gray path holds
pairwise-distinct known slugs. -/
def visitNode (defs : List MetricDefinition) :
    Nat → List String → List String → String → Except BuildError (List String)
  | 0, _, _, _ => .error (.cycleDetected [])
  | fuel + 1, gray, acc, n =>
      if n ∈ acc then .ok acc
      else if n ∈ gray then
        .error (.cycleDetected ((gray.takeWhile (fun g => g ≠ n)).reverse ++ [n]))
      else
        match findMetricDef defs n with
        | none => .error (.dependencyNotFound (gray.headD "") n)
        | some d =>
            match d.dependencies.foldlM (fun a dep => visitNode defs fuel (n :: gray) a dep) acc with
            | .error e => .error e
            | .ok acc₁ => .ok (acc₁ ++ [n])

/-- Lexical (code-point) order on character lists. -/
def charListLe : List Char → List Char → Bool
  | [], _ => true
  | _ :: _, [] => false
  | a :: as, b :: bs =>
      if a.toNat < b.toNat then true
      else if b.toNat < a.toNat then false
      else charListLe as bs

/-- Lexical order on slugs. -/
def slugLe (a b : String) : Bool := charListLe a.data b.data

def orderedInsertBy (le : String → String → Bool) (a : String) : List String → List String
  | [] => [a]
  | b :: l => if le a b then a :: b :: l else b :: orderedInsertBy le a l

/-- Insertion sort, used to put the builder's roots in lexical slug order. -/
def insertionSortBy (le : String → String → Bool) : List String → List String
  | [] => []
  | b :: l => orderedInsertBy le b (insertionSortBy le l)

/-- The builder's root order: all slugs in lexical order, giving the
spec-mandated deterministic tie-break among independent subgraphs. -/
def sortedSlugs (defs : List MetricDefinition) : List String :=
  insertionSortBy slugLe (slugsOf defs)

/-- Modelled from the spec: the Dependency Graph Builder (§4.1) — a pure
function from the definition set to a topological ordering of slugs, or a
registration-time error. -/
def buildOrder (defs : List MetricDefinition) : Except BuildError (List String) :=
  (sortedSlugs defs).foldlM (fun acc n => visitNode defs (defs.length + 1) [] acc n) []

/-- The engine's view of what a seed script creates. -/
def MetricSpec.toDefinition (m : MetricSpec) : MetricDefinition :=
  ⟨m.slug, m.ttl, m.dependencies, true⟩

/-- The definition set created by the repository's seed scripts themselves
(`enabled = 1` everywhere it is written). -/
def scriptCreatedDefs : List MetricDefinition :=
  allSeedMetricSpecs.map MetricSpec.toDefinition

/-- The dependency edge relation the builder traverses: `a` consumes `b`. -/
def Edge (defs : List MetricDefinition) (a b : String) : Prop :=
  ∃ d, findMetricDef defs a = some d ∧ b ∈ d.dependencies

/-- A directed dependency cycle: a chain of edges from some slug back to
itself. -/
def HasDepCycle (defs : List MetricDefinition) : Prop :=
  ∃ x l, List.Chain' (Edge defs) (x :: (l ++ [x]))

def Acyclic (defs : List MetricDefinition) : Prop :=
  ¬ HasDepCycle defs

/-- Every declared dependency references a known slug. -/
def Closed (defs : List MetricDefinition) : Prop :=
  ∀ d ∈ defs, ∀ dep ∈ d.dependencies, dep ∈ slugsOf defs

/-- `l` lists every metric after all of its dependencies. -/
def TopoSorted (defs : List MetricDefinition) (l : List String) : Prop :=
  ∀ i, (h : i < l.length) → ∀ d, findMetricDef defs (l.get ⟨i, h⟩) = some d →
    ∀ dep ∈ d.dependencies, dep ∈ l.take i

/-! ### Snapshot store and evaluator (§4.2–§4.4), modelled from the spec -/

/-- Modelled from the spec: a current snapshot (§3); payloads are opaque,
`completedAt` the completion instant. -/
structure Snapshot where
  valuesPayload : String
  renderedOutput : String
  completedAt : Nat
deriving DecidableEq, Repr

/-- The Snapshot Store's current-snapshot association, newest first:
`put` is append-then-promote, so the head entry for a slug is current. -/
def SnapshotStore : Type := List (String × Snapshot)

def storeGet (store : SnapshotStore) (slug : String) : Option Snapshot :=
  (List.find? (fun p => p.1 == slug) store).map (fun p => p.2)

/-- §4.2 `put`: append the new row and promote it to current for the slug. -/
def storePut (store : SnapshotStore) (slug : String) (snap : Snapshot) : SnapshotStore :=
  (slug, snap) :: store

/-- Modelled from the spec: the staleness rule of §4.2 — stale when there is
no completed snapshot, when the TTL has lapsed (0 meaning always stale),
or when any transitive dependency was recomputed after this snapshot's
completion; the recursion is fuelled by the definition count, a bound on
acyclic dependency depth. -/
def isStaleAux (defs : List MetricDefinition) (store : SnapshotStore) (now : Nat) :
    Nat → String → Bool
  | 0, _ => true
  | fuel + 1, slug =>
      match storeGet store slug with
      | none => true
      | some snap =>
          match findMetricDef defs slug with
          | none => true
          | some d =>
              d.ttlSeconds == 0 || decide (snap.completedAt + d.ttlSeconds < now) ||
                d.dependencies.any (fun dep =>
                  (match storeGet store dep with
                   | none => true
                   | some dsnap => decide (snap.completedAt < dsnap.completedAt)) ||
                  isStaleAux defs store now fuel dep)

def isStale (defs : List MetricDefinition) (store : SnapshotStore)
    (slug : String) (now : Nat) : Bool :=
  isStaleAux defs store now (defs.length + 1) slug

/-- Per-metric terminal state within one refresh cycle (§4.4). -/
inductive CycleStatus where
  | completed
  | failed
  | blocked
deriving DecidableEq, Repr

/-- The evaluator's state over a refresh cycle: the snapshot store, the
per-metric cycle statuses, and the failure diagnostics record. -/
structure EvalState where
  store : SnapshotStore
  statuses : List (String × CycleStatus)
  failures : List String

def statusOf (sts : List (String × CycleStatus)) (slug : String) : Option CycleStatus :=
  (sts.find? (fun p => p.1 == slug)).map (fun p => p.2)

/-- The external ComputationProvider boundary (§6): given the slug and the
resolved dependency inputs, produce `(values, rendered)` or fail —
failure covers both provider errors and timeouts, treated identically. -/
def Provider : Type := String → List (String × String) → Option (String × String)

/-- The dependency input bundle gathered from current snapshots. -/
def depInputs (store : SnapshotStore) (deps : List String) : List (String × String) :=
  deps.filterMap (fun dep => (storeGet store dep).map (fun s => (dep, s.valuesPayload)))

/-- Modelled from the spec: one step of the evaluator's §4.4 state machine.
Fresh → reuse the cached snapshot; a non-completed dependency →
`blocked` without invoking the provider; provider success → `put`;
provider failure → record the failure, leave the store untouched. -/
def evalOne (defs : List MetricDefinition) (provider : Provider) (now : Nat)
    (st : EvalState) (slug : String) : EvalState :=
  match findMetricDef defs slug with
  | none => st
  | some d =>
      if isStale defs st.store slug now = false then
        { st with statuses := st.statuses ++ [(slug, .completed)] }
      else if d.dependencies.all (fun dep => statusOf st.statuses dep == some .completed) then
        match provider slug (depInputs st.store d.dependencies) with
        | some (v, r) =>
            { st with
              store := storePut st.store slug ⟨v, r, now⟩,
              statuses := st.statuses ++ [(slug, .completed)] }
        | none =>
            { st with
              statuses := st.statuses ++ [(slug, .failed)],
              failures := st.failures ++ [slug] }
      else
        { st with statuses := st.statuses ++ [(slug, .blocked)] }

/-- Modelled from the spec: a whole refresh cycle — walk the topological
order, one evaluator step per slug. -/
def evalCycle (defs : List MetricDefinition) (provider : Provider) (now : Nat)
    (order : List String) (store : SnapshotStore) : EvalState :=
  order.foldl (evalOne defs provider now) ⟨store, [], []⟩

/-! ### Fresh-id hypotheses for the seeding runs -/

/-- An upper bound on the number of `uuid.uuid4()` calls any script makes. -/
def idBudget : Nat := 60

/-- Whether `x` occurs in the database as a definition id or as a metric id
referenced from a snapshot or binding. -/
def DB.usesId (db : DB) (x : String) : Bool :=
  db.metricDefinitions.any (fun d => d.id == x) ||
    db.screenMetrics.any (fun b => b.metricId == x) ||
    db.metricSnapshots.any (fun s => s.metricId == x)

/-- The metric ids hardcoded inside the scripts (seed_ceo_dashboard's
`EXISTING` table, as used by its rebindings). -/
def reservedIds : List String :=
  ceoRebindings.map (fun rb => rb.metricId)

/-- The id supply is injective below the budget and avoids every id already
in the database and every hardcoded id. -/
def FreshIds (ids : Nat → String) (db : DB) : Prop :=
  (∀ i, i < idBudget → ∀ j, j < idBudget → ids i = ids j → i = j) ∧
    (∀ i, i < idBudget → db.usesId (ids i) = false ∧ ids i ∉ reservedIds)

/-- Injectivity of the id supply on the index interval `[c, c+k)`. -/
def InjOn (ids : Nat → String) (c k : Nat) : Prop :=
  ∀ i j, c ≤ i → i < c + k → c ≤ j → j < c + k → ids i = ids j → i = j

/-- The ids at indices in `[c, c+k)` do not occur in `db`. -/
def UnusedOn (ids : Nat → String) (c k : Nat) (db : DB) : Prop :=
  ∀ i, c ≤ i → i < c + k → db.usesId (ids i) = false

/-- Snapshots in `db` referencing metric id `x`. -/
def countSnapsFor (db : DB) (x : String) : Nat :=
  (db.metricSnapshots.filter (fun s => s.metricId == x)).length

/-- Screen bindings in `db` referencing metric id `x`. -/
def countBindsFor (db : DB) (x : String) : Nat :=
  (db.screenMetrics.filter (fun b => b.metricId == x)).length

/-- The status enum of the snapshot table (§6). -/
def snapshotStatusEnum : List String := ["pending", "completed", "failed"]

/-- The status literal each multi-metric row style writes. -/
def SeedStyle.snapStatus : SeedStyle → String
  | .standard => "completed"
  | .batch3 => "success"

/-- The status literal a script writes into `metric_snapshots.status`:
`'success'` in seed_ceo_dashboard_batch3.py, `'completed'` everywhere
else. -/
def Script.snapStatus (s : Script) : String :=
  if s = .seedCeoDashboardBatch3 then "success" else "completed"

/-- The scripts that do not issue `PRAGMA busy_timeout` on their connection. -/
def noBusyTimeoutScripts : List Script :=
  [ .bindDiscoveryCallsScreen, .seedCeoDashboard, .seedCeoDashboardBatch2,
    .seedCeoDashboardBatch3, .seedDiscoveryCalls, .seedTrailingFollowupCalls ]

end Kiingo

deriving instance DecidableEq for Except

namespace Kiingo

/-! ## Basic facts about the embedded database operations -/

theorem bindStep_defs (db : DB) (sc mid bid : String) :
    (db.bindStep sc mid bid).metricDefinitions = db.metricDefinitions := by
  unfold DB.bindStep; split <;> rfl

theorem bindStep_snaps (db : DB) (sc mid bid : String) :
    (db.bindStep sc mid bid).metricSnapshots = db.metricSnapshots := by
  unfold DB.bindStep; split <;> rfl

theorem bindStep_exists (db : DB) (sc mid bid : String) :
    (db.bindStep sc mid bid).bindingExists sc mid = true := by
  unfold DB.bindStep
  split
  · assumption
  · show DB.bindingExists _ sc mid = true
    unfold DB.bindingExists
    rw [List.any_append]
    simp

theorem bindStep_eq_of_exists {db : DB} {sc mid : String} (bid : String)
    (h : db.bindingExists sc mid = true) : db.bindStep sc mid bid = db := by
  unfold DB.bindStep; simp [h]

end Kiingo

namespace Kiingo

theorem findDefBySlug_congr {db db' : DB} (s : String)
    (h : db'.metricDefinitions = db.metricDefinitions) :
    db'.findDefBySlug s = db.findDefBySlug s := by
  unfold DB.findDefBySlug; rw [h]

theorem slugExists_congr {db db' : DB} (s : String)
    (h : db'.metricDefinitions = db.metricDefinitions) :
    db'.slugExists s = db.slugExists s := by
  unfold DB.slugExists; rw [h]

theorem bindingExists_mono_append (db : DB) (l : List BindRow) (sc mid : String)
    (h : db.bindingExists sc mid = true) :
    (DB.mk db.metricDefinitions db.metricSnapshots (db.screenMetrics ++ l)).bindingExists
      sc mid = true := by
  unfold DB.bindingExists at h ⊢
  rw [List.any_append, h]
  rfl

theorem runSingleSeed_idem (cfg : MetricSpec) (ids ids' : Nat → String)
    (now now' : String) (db : DB) :
    runSingleSeed cfg ids' now' (runSingleSeed cfg ids now db) = runSingleSeed cfg ids now db := by
  cases h : db.findDefBySlug cfg.slug with
  | some d =>
      have hrun : runSingleSeed cfg ids now db = db.bindStep cfg.screenId d.id (ids 0) := by
        simp only [runSingleSeed, h]
      have hfind2 : (db.bindStep cfg.screenId d.id (ids 0)).findDefBySlug cfg.slug = some d := by
        rw [findDefBySlug_congr cfg.slug (bindStep_defs db _ _ _)]; exact h
      rw [hrun]
      simp only [runSingleSeed, hfind2]
      exact bindStep_eq_of_exists _ (bindStep_exists _ _ _ _)
  | none =>
      have hrun : runSingleSeed cfg ids now db =
          DB.bindStep
            ⟨db.metricDefinitions ++ [⟨ids 0, cfg.slug, cfg.ttl, some true, some cfg.dependencies⟩],
             db.metricSnapshots ++ [⟨ids 1, ids 0, "completed", some now⟩],
             db.screenMetrics⟩ cfg.screenId (ids 0) (ids 2) := by
        simp only [runSingleSeed, h]
      have hfind2 : (runSingleSeed cfg ids now db).findDefBySlug cfg.slug =
          some ⟨ids 0, cfg.slug, cfg.ttl, some true, some cfg.dependencies⟩ := by
        rw [hrun]
        unfold DB.findDefBySlug at h ⊢
        rw [bindStep_defs]
        show List.find? _ (db.metricDefinitions ++ _) = _
        rw [List.find?_append, h]
        simp
      conv_lhs => rw [runSingleSeed]
      rw [hfind2]
      show (runSingleSeed cfg ids now db).bindStep cfg.screenId (ids 0) (ids' 0) = _
      apply bindStep_eq_of_exists
      rw [hrun]
      exact bindStep_exists _ _ _ _

end Kiingo

namespace Kiingo

theorem insertMetric_slugExists (style : SeedStyle) (m : MetricSpec)
    (a b c now : String) (db : DB) (s : String) :
    (insertMetric style m a b c now db).slugExists s = (db.slugExists s || (m.slug == s)) := by
  cases style <;> simp [insertMetric, DB.slugExists, List.any_append]

theorem loop_slugExists_mono {style : SeedStyle} {ids : Nat → String} {now : String} :
    ∀ (specs : List MetricSpec) (c : Nat) (db : DB) (s : String),
      db.slugExists s = true →
      ((runMetricLoop style ids now specs c db).1).slugExists s = true := by
  intro specs
  induction specs with
  | nil => intro c db s h; simpa [runMetricLoop] using h
  | cons m rest ih =>
      intro c db s h
      unfold runMetricLoop
      split
      · exact ih _ _ _ h
      · apply ih
        rw [insertMetric_slugExists, h]
        rfl

theorem loop_creates {style : SeedStyle} {ids : Nat → String} {now : String} :
    ∀ (specs : List MetricSpec) (c : Nat) (db : DB), ∀ m ∈ specs,
      ((runMetricLoop style ids now specs c db).1).slugExists m.slug = true := by
  intro specs
  induction specs with
  | nil => intro c db m hm; cases hm
  | cons m₀ rest ih =>
      intro c db m hm
      unfold runMetricLoop
      rcases List.mem_cons.mp hm with rfl | hm'
      · split
        · next hcond => exact loop_slugExists_mono rest c db m.slug hcond
        · apply loop_slugExists_mono
          rw [insertMetric_slugExists]
          simp
      · split
        · exact ih _ _ m hm'
        · exact ih _ _ m hm'

theorem loop_skip_all {style : SeedStyle} {ids : Nat → String} {now : String} :
    ∀ (specs : List MetricSpec) (c : Nat) (db : DB),
      (∀ m ∈ specs, db.slugExists m.slug = true) →
      runMetricLoop style ids now specs c db = (db, c) := by
  intro specs
  induction specs with
  | nil => intro c db _; rfl
  | cons m rest ih =>
      intro c db h
      unfold runMetricLoop
      rw [h m (List.mem_cons_self m rest)]
      exact ih c db (fun m' hm' => h m' (List.mem_cons_of_mem m hm'))

end Kiingo

namespace Kiingo

theorem rebindChecked_defs {ids : Nat → String} :
    ∀ (rbs : List IdRebinding) (c : Nat) (db : DB),
      ((runRebindChecked ids rbs c db).1).metricDefinitions = db.metricDefinitions := by
  intro rbs
  induction rbs with
  | nil => intro c db; rfl
  | cons rb rest ih =>
      intro c db
      unfold runRebindChecked
      split
      · exact ih _ _
      · rw [ih]

theorem rebindChecked_snaps {ids : Nat → String} :
    ∀ (rbs : List IdRebinding) (c : Nat) (db : DB),
      ((runRebindChecked ids rbs c db).1).metricSnapshots = db.metricSnapshots := by
  intro rbs
  induction rbs with
  | nil => intro c db; rfl
  | cons rb rest ih =>
      intro c db
      unfold runRebindChecked
      split
      · exact ih _ _
      · rw [ih]

theorem rebindChecked_bind_mono {ids : Nat → String} :
    ∀ (rbs : List IdRebinding) (c : Nat) (db : DB) (sc mid : String),
      db.bindingExists sc mid = true →
      ((runRebindChecked ids rbs c db).1).bindingExists sc mid = true := by
  intro rbs
  induction rbs with
  | nil => intro c db sc mid h; exact h
  | cons rb rest ih =>
      intro c db sc mid h
      unfold runRebindChecked
      split
      · exact ih _ _ _ _ h
      · exact ih _ _ _ _ (bindingExists_mono_append db _ sc mid h)

theorem bindingExists_append_self (db : DB) (bid sc mid : String) :
    (DB.mk db.metricDefinitions db.metricSnapshots
      (db.screenMetrics ++ [⟨bid, sc, mid⟩])).bindingExists sc mid = true := by
  unfold DB.bindingExists
  rw [List.any_append]
  simp

theorem rebindChecked_covers {ids : Nat → String} :
    ∀ (rbs : List IdRebinding) (c : Nat) (db : DB), ∀ rb ∈ rbs,
      ((runRebindChecked ids rbs c db).1).bindingExists rb.screenId rb.metricId = true := by
  intro rbs
  induction rbs with
  | nil => intro c db rb hrb; cases hrb
  | cons rb₀ rest ih =>
      intro c db rb hrb
      unfold runRebindChecked
      rcases List.mem_cons.mp hrb with rfl | hrb'
      · split
        · next hcond => exact rebindChecked_bind_mono rest _ db _ _ hcond
        · exact rebindChecked_bind_mono rest _ _ _ _
            (bindingExists_append_self db (ids c) rb.screenId rb.metricId)
      · split
        · exact ih _ _ rb hrb'
        · exact ih _ _ rb hrb'

end Kiingo

namespace Kiingo

theorem rebindChecked_skip_all {ids : Nat → String} :
    ∀ (rbs : List IdRebinding) (c : Nat) (db : DB),
      (∀ rb ∈ rbs, db.bindingExists rb.screenId rb.metricId = true) →
      (runRebindChecked ids rbs c db).1 = db := by
  intro rbs
  induction rbs with
  | nil => intro c db _; rfl
  | cons rb rest ih =>
      intro c db h
      unfold runRebindChecked
      rw [h rb (List.mem_cons_self rb rest)]
      exact ih _ db (fun rb' hrb' => h rb' (List.mem_cons_of_mem rb hrb'))

theorem bindScreen_defs {ids : Nat → String} :
    ∀ (bs : List BindSpec) (c : Nat) (db : DB),
      ((runBindScreen ids bs c db).1).metricDefinitions = db.metricDefinitions := by
  intro bs
  induction bs with
  | nil => intro c db; rfl
  | cons b rest ih =>
      intro c db
      unfold runBindScreen
      split
      · exact ih _ _
      · split
        · exact ih _ _
        · rw [ih]

theorem bindScreen_snaps {ids : Nat → String} :
    ∀ (bs : List BindSpec) (c : Nat) (db : DB),
      ((runBindScreen ids bs c db).1).metricSnapshots = db.metricSnapshots := by
  intro bs
  induction bs with
  | nil => intro c db; rfl
  | cons b rest ih =>
      intro c db
      unfold runBindScreen
      split
      · exact ih _ _
      · split
        · exact ih _ _
        · rw [ih]

theorem bindScreen_bind_mono {ids : Nat → String} :
    ∀ (bs : List BindSpec) (c : Nat) (db : DB) (sc mid : String),
      db.bindingExists sc mid = true →
      ((runBindScreen ids bs c db).1).bindingExists sc mid = true := by
  intro bs
  induction bs with
  | nil => intro c db sc mid h; exact h
  | cons b rest ih =>
      intro c db sc mid h
      unfold runBindScreen
      split
      · exact ih _ _ _ _ h
      · split
        · exact ih _ _ _ _ h
        · exact ih _ _ _ _ (bindingExists_mono_append db _ sc mid h)

theorem bindScreen_covers {ids : Nat → String} :
    ∀ (bs : List BindSpec) (c : Nat) (db : DB), ∀ b ∈ bs, ∀ d : DefRow,
      db.findDefBySlug b.slug = some d →
      ((runBindScreen ids bs c db).1).bindingExists b.screenId d.id = true := by
  intro bs
  induction bs with
  | nil => intro c db b hb; cases hb
  | cons b₀ rest ih =>
      intro c db b hb d hd
      unfold runBindScreen
      rcases List.mem_cons.mp hb with rfl | hb'
      · split
        · next heq => rw [hd] at heq; exact Option.noConfusion heq
        · next d' heq =>
            rw [hd] at heq
            injection heq with heq'
            subst heq'
            split
            · next hcond => exact bindScreen_bind_mono rest _ db _ _ hcond
            · exact bindScreen_bind_mono rest _ _ _ _
                (bindingExists_append_self db (ids c) b.screenId d.id)
      · split
        · next heq =>
            exact ih _ _ b hb' d hd
        · next d' heq =>
            split
            · exact ih _ _ b hb' d hd
            · apply ih _ _ b hb' d
              rw [findDefBySlug_congr b.slug rfl]
              exact hd

theorem bindScreen_skip_all {ids : Nat → String} :
    ∀ (bs : List BindSpec) (c : Nat) (db : DB),
      (∀ b ∈ bs, ∀ d : DefRow, db.findDefBySlug b.slug = some d →
        db.bindingExists b.screenId d.id = true) →
      (runBindScreen ids bs c db).1 = db := by
  intro bs
  induction bs with
  | nil => intro c db _; rfl
  | cons b rest ih =>
      intro c db h
      unfold runBindScreen
      split
      · exact ih _ db (fun b' hb' => h b' (List.mem_cons_of_mem b hb'))
      · next d heq =>
          rw [if_pos (h b (List.mem_cons_self b rest) d heq)]
          exact ih _ db (fun b' hb' => h b' (List.mem_cons_of_mem b hb'))

end Kiingo

namespace Kiingo

theorem multiLoop_idem (style : SeedStyle) (ids ids' : Nat → String)
    (now now' : String) (specs : List MetricSpec) (db : DB) :
    (runMetricLoop style ids' now' specs 0 (runMetricLoop style ids now specs 0 db).1).1 =
      (runMetricLoop style ids now specs 0 db).1 := by
  rw [loop_skip_all specs 0 _ (fun m hm => loop_creates specs 0 db m hm)]

theorem bindScreen_run_idem (ids ids' : Nat → String) (bs : List BindSpec) (db : DB) :
    (runBindScreen ids' bs 0 (runBindScreen ids bs 0 db).1).1 =
      (runBindScreen ids bs 0 db).1 := by
  apply bindScreen_skip_all
  intro b hb d hd
  rw [findDefBySlug_congr b.slug (bindScreen_defs bs 0 db)] at hd
  exact bindScreen_covers bs 0 db b hb d hd

theorem ceoMain_idem (ids ids' : Nat → String) (now now' : String) (db : DB) :
    Script.run .seedCeoDashboard ids' now' (Script.run .seedCeoDashboard ids now db) =
      Script.run .seedCeoDashboard ids now db := by
  simp only [Script.run]
  set F := (runRebindChecked ids ceoRebindings
      (runMetricLoop .standard ids now ceoDashboardMetrics 0 db).2
      (runMetricLoop .standard ids now ceoDashboardMetrics 0 db).1).1 with hF
  have hslug : ∀ m ∈ ceoDashboardMetrics, F.slugExists m.slug = true := by
    intro m hm
    rw [hF, slugExists_congr m.slug (rebindChecked_defs _ _ _)]
    exact loop_creates _ _ _ m hm
  have hloop2 : runMetricLoop .standard ids' now' ceoDashboardMetrics 0 F = (F, 0) :=
    loop_skip_all _ _ _ hslug
  rw [hloop2]
  apply rebindChecked_skip_all
  intro rb hrb
  rw [hF]
  exact rebindChecked_covers _ _ _ rb hrb

end Kiingo

namespace Kiingo

/-- C1 (counterexample): re-running seed_ceo_dashboard_batch3.py is not
idempotent.  Against a database that already holds a `top-customers-revenue`
definition (as seed_ceo_dashboard.py leaves behind), a second run re-inserts
the slug-resolved rebinding row into `screen_metrics`, so the state changes
again. -/
theorem C1_counterexample_batch3_not_idempotent :
    Script.run .seedCeoDashboardBatch3 (fun n => "v" ++ toString n) "2026-02-02"
        (Script.run .seedCeoDashboardBatch3 (fun n => "u" ++ toString n) "2026-02-01"
          ⟨[⟨"m-top", "top-customers-revenue", 86400, some true, some []⟩], [], []⟩) ≠
      Script.run .seedCeoDashboardBatch3 (fun n => "u" ++ toString n) "2026-02-01"
        ⟨[⟨"m-top", "top-customers-revenue", 86400, some true, some []⟩], [], []⟩ := by
  decide

/-- C1 (amended): every script other than seed_ceo_dashboard_batch3.py is
idempotent — a second run against the state left by the first (with any
fresh ids and timestamp) returns that state unchanged: the metric loops
skip every already-present slug, and the guarded binding steps skip every
already-present `(screen_id, metric_id)` pair.  Batch3's slug-resolved
rebinding step has no such guard, which is what the counterexample
exhibits. -/
theorem C1_amended_idempotent_except_batch3 (s : Script)
    (h : s ≠ .seedCeoDashboardBatch3) (ids ids' : Nat → String)
    (now now' : String) (db : DB) :
    Script.run s ids' now' (Script.run s ids now db) = Script.run s ids now db := by
  cases s
  case seedCeoDashboardBatch3 => exact absurd rfl h
  case bindDiscoveryCallsScreen =>
    exact bindScreen_run_idem ids ids' discoveryScreenBindings db
  case seedCeoDashboard => exact ceoMain_idem ids ids' now now' db
  case seedDiscoveryCalls =>
    exact multiLoop_idem .standard ids ids' now now' discoveryCallsMetrics db
  case seedCeoDashboardBatch2 =>
    exact multiLoop_idem .standard ids ids' now now' batch2Metrics db
  all_goals
    exact runSingleSeed_idem _ ids ids' now now' db

/-- C1 (witness): the amended idempotence at a concrete instance —
seed_discovery_calls.py re-run against the state it left on an empty
database. -/
theorem C1_amended_witness :
    (Script.seedDiscoveryCalls ≠ Script.seedCeoDashboardBatch3) ∧
    Script.run .seedDiscoveryCalls (fun n => "v" ++ toString n) "2026-02-02"
        (Script.run .seedDiscoveryCalls (fun n => "u" ++ toString n) "2026-02-01" DB.empty) =
      Script.run .seedDiscoveryCalls (fun n => "u" ++ toString n) "2026-02-01" DB.empty :=
  ⟨by decide,
   C1_amended_idempotent_except_batch3 .seedDiscoveryCalls (by decide)
     (fun n => "u" ++ toString n) (fun n => "v" ++ toString n) "2026-02-01" "2026-02-02" DB.empty⟩

end Kiingo

namespace Kiingo

/-- C8: every one of the twenty scripts hardcodes, as its module-level
`DB_PATH` constant, the identical user-expanded database file path, and no
script reads configuration from anywhere else, so all scripts address the
same single state file. -/
theorem C8_db_path_uniform (s : Script) :
    s.dbPath = "~/Library/Application Support/com.kiingo.localcli/state.sqlite" := rfl

/-- C5: seed_discovery_calls.py defines exactly two metrics —
`trailing-discovery-calls` with `ttl_seconds` 3600 and empty metadata
(no dependencies), and `discovery-call-summary` with `ttl_seconds` 3600
and dependencies exactly `["trailing-discovery-calls",
"sales-pipeline-value"]`, in that order. -/
theorem C5_discovery_fixture :
    discoveryCallsMetrics.length = 2 ∧
    discoveryCallsMetrics.map (fun m => m.slug) =
      ["trailing-discovery-calls", "discovery-call-summary"] ∧
    discoveryCallsMetrics.map (fun m => m.ttl) = [3600, 3600] ∧
    discoveryCallsMetrics.map (fun m => m.dependencies) =
      [[], ["trailing-discovery-calls", "sales-pipeline-value"]] := by
  decide

/-- C4 (counterexample): not every seed script configures a busy timeout —
seed_discovery_calls.py opens its connection with no `PRAGMA
busy_timeout` at all. -/
theorem C4_counterexample_no_busy_timeout :
    ¬ ∀ s : Script, s.isSeedScript = true → (s.busyTimeout).isSome = true := by
  intro h
  have h2 := h .seedDiscoveryCalls (by decide)
  rw [show Script.busyTimeout .seedDiscoveryCalls = none from rfl] at h2
  exact Bool.noConfusion h2

/-- C4 (amended): fourteen of the nineteen seed scripts issue
`PRAGMA busy_timeout = 5000` on the connection they open;
seed_ceo_dashboard.py, seed_ceo_dashboard_batch2.py,
seed_ceo_dashboard_batch3.py, seed_discovery_calls.py,
seed_trailing_followup_calls.py (and the bind script) set no busy
timeout. -/
theorem C4_amended_busy_timeout (s : Script) :
    (s ∉ noBusyTimeoutScripts → s.busyTimeout = some 5000) ∧
    (s ∈ noBusyTimeoutScripts → s.busyTimeout = none) := by
  cases s <;>
    exact ⟨fun h => by first | rfl | exact absurd (by decide) h,
           fun h => by first | rfl | exact absurd h (by decide)⟩

/-- C4 (witness): the amended claim at seed_revenue_tracker.py, which does
set the 5000 ms busy timeout. -/
theorem C4_amended_witness :
    (Script.seedRevenueTracker ∉ noBusyTimeoutScripts) ∧
    Script.busyTimeout .seedRevenueTracker = some 5000 :=
  ⟨by decide, (C4_amended_busy_timeout .seedRevenueTracker).1 (by decide)⟩

/-- C3 (counterexample): not every slug in a `dependencies` array written by
the seed scripts is a slug the repository's scripts themselves create —
`sales-pipeline-value` (and likewise `monthly-revenue`) is referenced but
created by no script. -/
theorem C3_counterexample_unknown_dependency :
    ¬ ∀ dep ∈ writtenDependencySlugs, dep ∈ scriptCreatedSlugs := by
  decide

/-- C3 (amended): every dependency slug the seed scripts write is either a
slug the scripts themselves create or one of the pre-existing metrics
recorded in seed_ceo_dashboard.py's `EXISTING` table; and against exactly
the script-created definition set, the (spec-modelled) builder rejects
the unknown reference with `DependencyNotFound` at build time. -/
theorem C3_amended_dependencies_known :
    (∀ dep ∈ writtenDependencySlugs,
      dep ∈ scriptCreatedSlugs ∨ dep ∈ ceoExisting.map Prod.fst) ∧
    buildOrder scriptCreatedDefs =
      .error (.dependencyNotFound "discovery-call-summary" "sales-pipeline-value") := by
  exact ⟨by decide, by decide⟩

/-- C3 (witness): the amended claim at the dependency `sales-pipeline-value`,
which is known only through the `EXISTING` table. -/
theorem C3_amended_witness :
    ("sales-pipeline-value" ∈ writtenDependencySlugs) ∧
    ("sales-pipeline-value" ∈ scriptCreatedSlugs ∨
      "sales-pipeline-value" ∈ ceoExisting.map Prod.fst) :=
  ⟨by decide, C3_amended_dependencies_known.1 "sales-pipeline-value" (by decide)⟩

/-- C2 (counterexample): the program does write a status outside the
`pending/completed/failed` enum — seed_ceo_dashboard_batch3.py inserts
snapshots with status `'success'`. -/
theorem C2_counterexample_success_status :
    ¬ ∀ (s : Script) (ids : Nat → String) (now : String) (db : DB),
        ∀ snap ∈ (Script.run s ids now db).metricSnapshots,
          snap ∈ db.metricSnapshots ∨ snap.status ∈ snapshotStatusEnum := by
  intro h
  have h2 := h .seedCeoDashboardBatch3 (fun _ => "u") "t" DB.empty
    ⟨"u", "u", "success", none⟩ (by decide)
  rcases h2 with h2 | h2
  · exact absurd h2 (by decide)
  · exact absurd h2 (by decide)

end Kiingo

namespace Kiingo

theorem rebindUnchecked_defs {ids : Nat → String} :
    ∀ (rbs : List SlugRebinding) (c : Nat) (db : DB),
      ((runRebindUnchecked ids rbs c db).1).metricDefinitions = db.metricDefinitions := by
  intro rbs
  induction rbs with
  | nil => intro c db; rfl
  | cons rb rest ih =>
      intro c db
      unfold runRebindUnchecked
      split
      · exact ih _ _
      · rw [ih]

theorem rebindUnchecked_snaps {ids : Nat → String} :
    ∀ (rbs : List SlugRebinding) (c : Nat) (db : DB),
      ((runRebindUnchecked ids rbs c db).1).metricSnapshots = db.metricSnapshots := by
  intro rbs
  induction rbs with
  | nil => intro c db; rfl
  | cons rb rest ih =>
      intro c db
      unfold runRebindUnchecked
      split
      · exact ih _ _
      · rw [ih]

theorem singleSeed_snaps_status (cfg : MetricSpec) (ids : Nat → String)
    (now : String) (db : DB) :
    ∀ snap ∈ (runSingleSeed cfg ids now db).metricSnapshots,
      snap ∈ db.metricSnapshots ∨ snap.status = "completed" := by
  intro snap hs
  cases h : db.findDefBySlug cfg.slug with
  | some d =>
      rw [show runSingleSeed cfg ids now db = db.bindStep cfg.screenId d.id (ids 0) from by
            simp only [runSingleSeed, h],
          bindStep_snaps] at hs
      exact Or.inl hs
  | none =>
      rw [show runSingleSeed cfg ids now db =
            DB.bindStep
              ⟨db.metricDefinitions ++
                 [⟨ids 0, cfg.slug, cfg.ttl, some true, some cfg.dependencies⟩],
               db.metricSnapshots ++ [⟨ids 1, ids 0, "completed", some now⟩],
               db.screenMetrics⟩ cfg.screenId (ids 0) (ids 2) from by
            simp only [runSingleSeed, h],
          bindStep_snaps] at hs
      rcases List.mem_append.mp hs with hs' | hs'
      · exact Or.inl hs'
      · rcases List.mem_singleton.mp hs' with rfl
        exact Or.inr rfl

theorem loop_snaps_status {style : SeedStyle} {ids : Nat → String} {now : String} :
    ∀ (specs : List MetricSpec) (c : Nat) (db : DB),
      ∀ snap ∈ ((runMetricLoop style ids now specs c db).1).metricSnapshots,
        snap ∈ db.metricSnapshots ∨ snap.status = style.snapStatus := by
  intro specs
  induction specs with
  | nil => intro c db snap hs; exact Or.inl hs
  | cons m rest ih =>
      intro c db snap hs
      rw [show runMetricLoop style ids now (m :: rest) c db =
            if db.slugExists m.slug then runMetricLoop style ids now rest c db
            else runMetricLoop style ids now rest (c + 3)
              (insertMetric style m (ids c) (ids (c + 1)) (ids (c + 2)) now db) from rfl] at hs
      split at hs
      · exact ih _ _ snap hs
      · rcases ih _ _ snap hs with hmem | hstat
        · cases style with
          | standard =>
              rcases List.mem_append.mp hmem with h' | h'
              · exact Or.inl h'
              · rcases List.mem_singleton.mp h' with rfl
                exact Or.inr rfl
          | batch3 =>
              rcases List.mem_append.mp hmem with h' | h'
              · exact Or.inl h'
              · rcases List.mem_singleton.mp h' with rfl
                exact Or.inr rfl
        · exact Or.inr hstat

/-- C2 (amended): every snapshot row a script adds carries the status literal
of that script — `'completed'` (a member of the enum) for every script
except seed_ceo_dashboard_batch3.py, which writes `'success'`, a value
outside the `pending/completed/failed` enum. -/
theorem C2_amended_statuses (s : Script) (ids : Nat → String) (now : String) (db : DB) :
    (∀ snap ∈ (Script.run s ids now db).metricSnapshots,
      snap ∈ db.metricSnapshots ∨ snap.status = s.snapStatus) ∧
    ("completed" ∈ snapshotStatusEnum ∧ "success" ∉ snapshotStatusEnum) := by
  refine ⟨?_, by decide, by decide⟩
  cases s
  case bindDiscoveryCallsScreen =>
      intro snap hs
      simp only [Script.run] at hs
      rw [bindScreen_snaps] at hs
      exact Or.inl hs
  case seedDiscoveryCalls =>
      intro snap hs
      simp only [Script.run] at hs
      exact loop_snaps_status _ _ _ snap hs
  case seedCeoDashboardBatch2 =>
      intro snap hs
      simp only [Script.run] at hs
      exact loop_snaps_status _ _ _ snap hs
  case seedCeoDashboard =>
      intro snap hs
      simp only [Script.run] at hs
      rw [rebindChecked_snaps] at hs
      exact loop_snaps_status _ _ _ snap hs
  case seedCeoDashboardBatch3 =>
      intro snap hs
      simp only [Script.run] at hs
      rw [rebindUnchecked_snaps] at hs
      exact loop_snaps_status _ _ _ snap hs
  all_goals
    intro snap hs
  all_goals
    simp only [Script.run, Script.singleConfig] at hs
  all_goals
    exact singleSeed_snaps_status _ ids now db snap hs

/-- C2 (witness): the amended claim at a concrete batch3 run on the empty
database, whose snapshots all carry `'success'`. -/
theorem C2_amended_witness :
    ((⟨"u", "u", "success", none⟩ : SnapRow) ∈
      (Script.run .seedCeoDashboardBatch3 (fun _ => "u") "t" DB.empty).metricSnapshots) ∧
    ((⟨"u", "u", "success", none⟩ : SnapRow) ∈ DB.empty.metricSnapshots ∨
      ("success" : String) = Script.snapStatus .seedCeoDashboardBatch3) :=
  ⟨by decide,
   (C2_amended_statuses .seedCeoDashboardBatch3 (fun _ => "u") "t" DB.empty).1
     ⟨"u", "u", "success", none⟩ (by decide)⟩

end Kiingo

namespace Kiingo

theorem bindingExists_false_of_append {db : DB} {l : List BindRow} {sc mid : String}
    (h : (DB.mk db.metricDefinitions db.metricSnapshots
      (db.screenMetrics ++ l)).bindingExists sc mid = false) :
    db.bindingExists sc mid = false := by
  cases hb : db.bindingExists sc mid with
  | false => rfl
  | true => rw [bindingExists_mono_append db l sc mid hb] at h; exact Bool.noConfusion h

theorem bindScreen_new_rows {ids : Nat → String} :
    ∀ (bs : List BindSpec) (c : Nat) (db : DB),
      ∀ row ∈ ((runBindScreen ids bs c db).1).screenMetrics,
        row ∈ db.screenMetrics ∨
          (db.bindingExists row.screenId row.metricId = false ∧
            ∃ d ∈ db.metricDefinitions, d.id = row.metricId ∧
              ∃ b ∈ bs, b.slug = d.slug ∧ b.screenId = row.screenId) := by
  intro bs
  induction bs with
  | nil => intro c db row hrow; exact Or.inl hrow
  | cons b rest ih =>
      intro c db row hrow
      unfold runBindScreen at hrow
      split at hrow
      · rcases ih _ _ row hrow with h | ⟨hbe, d, hd, hid, b', hb', hps⟩
        · exact Or.inl h
        · exact Or.inr ⟨hbe, d, hd, hid, b', List.mem_cons_of_mem b hb', hps⟩
      · next d heq =>
          split at hrow
          · rcases ih _ _ row hrow with h | ⟨hbe, d', hd', hid', b', hb', hps⟩
            · exact Or.inl h
            · exact Or.inr ⟨hbe, d', hd', hid', b', List.mem_cons_of_mem b hb', hps⟩
          · next hfalse =>
              simp only [Bool.not_eq_true] at hfalse
              rcases ih _ _ row hrow with h | ⟨hbe, d', hd', hid', b', hb', hps⟩
              · rcases List.mem_append.mp h with h' | h'
                · exact Or.inl h'
                · rcases List.mem_singleton.mp h' with rfl
                  refine Or.inr ⟨hfalse, d, List.mem_of_find?_eq_some heq, rfl,
                    b, List.mem_cons_self b rest, ?_, rfl⟩
                  have hbeq : (d.slug == b.slug) = true :=
                    List.find?_some (p := fun d : DefRow => d.slug == b.slug) heq
                  exact (eq_of_beq hbeq).symm
              · exact Or.inr ⟨bindingExists_false_of_append hbe, d', hd', hid', b',
                  List.mem_cons_of_mem b hb', hps⟩

/-- C9: bind_discovery_calls_screen.py writes only to the `screen_metrics`
table — `metric_definitions` and `metric_snapshots` are returned
unchanged — and every row it adds is for a previously unbound
`(screen_id, metric_id)` pair whose metric id it resolved from one of the
two discovery slugs; when a slug resolves to no metric, nothing is
inserted for it. -/
theorem C9_bind_screen_frame (ids : Nat → String) (now : String) (db : DB) :
    (Script.run .bindDiscoveryCallsScreen ids now db).metricDefinitions =
      db.metricDefinitions ∧
    (Script.run .bindDiscoveryCallsScreen ids now db).metricSnapshots =
      db.metricSnapshots ∧
    ∀ row ∈ (Script.run .bindDiscoveryCallsScreen ids now db).screenMetrics,
      row ∈ db.screenMetrics ∨
        (db.bindingExists row.screenId row.metricId = false ∧
          ∃ d ∈ db.metricDefinitions, d.id = row.metricId ∧
            (d.slug = "discovery-call-summary" ∨ d.slug = "trailing-discovery-calls")) := by
  refine ⟨bindScreen_defs _ _ _, bindScreen_snaps _ _ _, ?_⟩
  intro row hrow
  rcases bindScreen_new_rows discoveryScreenBindings 0 db row hrow with
    h | ⟨hbe, d, hd, hid, b, hb, hslug, _⟩
  · exact Or.inl h
  · refine Or.inr ⟨hbe, d, hd, hid, ?_⟩
    rcases List.mem_cons.mp hb with rfl | hb'
    · exact Or.inl hslug.symm
    · rcases List.mem_cons.mp hb' with rfl | hb''
      · exact Or.inr hslug.symm
      · cases hb''

/-- C9 (witness): the frame property at a concrete one-definition database. -/
theorem C9_bind_screen_frame_witness :
    (Script.run .bindDiscoveryCallsScreen (fun n => "b" ++ toString n) "t"
        ⟨[⟨"md1", "discovery-call-summary", 3600, some true, some []⟩], [], []⟩).metricDefinitions =
      (⟨[⟨"md1", "discovery-call-summary", 3600, some true, some []⟩], [], []⟩ : DB).metricDefinitions ∧
    (Script.run .bindDiscoveryCallsScreen (fun n => "b" ++ toString n) "t"
        ⟨[⟨"md1", "discovery-call-summary", 3600, some true, some []⟩], [], []⟩).metricSnapshots =
      (⟨[⟨"md1", "discovery-call-summary", 3600, some true, some []⟩], [], []⟩ : DB).metricSnapshots ∧
    ∀ row ∈ (Script.run .bindDiscoveryCallsScreen (fun n => "b" ++ toString n) "t"
        ⟨[⟨"md1", "discovery-call-summary", 3600, some true, some []⟩], [], []⟩).screenMetrics,
      row ∈ (⟨[⟨"md1", "discovery-call-summary", 3600, some true, some []⟩], [], []⟩ : DB).screenMetrics ∨
        ((⟨[⟨"md1", "discovery-call-summary", 3600, some true, some []⟩], [], []⟩ : DB).bindingExists
            row.screenId row.metricId = false ∧
          ∃ d ∈ (⟨[⟨"md1", "discovery-call-summary", 3600, some true, some []⟩], [], []⟩ : DB).metricDefinitions,
            d.id = row.metricId ∧
            (d.slug = "discovery-call-summary" ∨ d.slug = "trailing-discovery-calls")) :=
  C9_bind_screen_frame (fun n => "b" ++ toString n) "t"
    ⟨[⟨"md1", "discovery-call-summary", 3600, some true, some []⟩], [], []⟩

end Kiingo

namespace Kiingo

theorem storeGet_put_ne (store : SnapshotStore) (s slug : String) (snap : Snapshot)
    (h : s ≠ slug) :
    storeGet (storePut store s snap) slug = storeGet store slug := by
  unfold storeGet storePut
  rw [List.find?_cons_of_neg]
  simpa using h

theorem evalOne_store_frame (defs : List MetricDefinition) (provider : Provider)
    (now : Nat) (st : EvalState) (s slug : String)
    (hfail : ∀ inp, provider slug inp = none) :
    storeGet ((evalOne defs provider now st s).store) slug = storeGet st.store slug := by
  unfold evalOne
  split
  · rfl
  · split
    · rfl
    · split
      · split
        · next v r hp =>
            by_cases hs : s = slug
            · subst hs; rw [hfail] at hp; exact Option.noConfusion hp
            · exact storeGet_put_ne st.store s slug ⟨v, r, now⟩ hs
        · rfl
      · rfl

theorem evalCycle_aux (defs : List MetricDefinition) (provider : Provider)
    (now : Nat) (slug : String) (hfail : ∀ inp, provider slug inp = none) :
    ∀ (order : List String) (st : EvalState),
      storeGet ((order.foldl (evalOne defs provider now) st).store) slug =
        storeGet st.store slug := by
  intro order
  induction order with
  | nil => intro st; rfl
  | cons s rest ih =>
      intro st
      rw [List.foldl_cons, ih]
      exact evalOne_store_frame defs provider now st s slug hfail

/-- C7 (spec-modelled): when a metric's computation fails in a refresh cycle
— its provider errors or times out on every input bundle of the cycle —
the evaluator never writes to that metric's slot in the snapshot store:
after the whole cycle, `get(slug)` still returns exactly the previous
current snapshot (byte for byte), whatever the rest of the order did. -/
theorem C7_failure_preserves_snapshot (defs : List MetricDefinition)
    (provider : Provider) (now : Nat) (order : List String)
    (store : SnapshotStore) (slug : String)
    (hfail : ∀ inp, provider slug inp = none) :
    storeGet (evalCycle defs provider now order store).store slug =
      storeGet store slug := by
  unfold evalCycle
  exact evalCycle_aux defs provider now slug hfail order ⟨store, [], []⟩

/-- C7 (witness): a one-metric cycle whose provider always fails leaves the
prior completed snapshot in place and served. -/
theorem C7_failure_preserves_snapshot_witness :
    storeGet (evalCycle [⟨"a", 3600, [], true⟩] (fun _ _ => none) 100 ["a"]
        [("a", ⟨"v", "r", 0⟩)]).store "a" =
      storeGet [("a", ⟨"v", "r", 0⟩)] "a" ∧
    storeGet [("a", ⟨"v", "r", 0⟩)] "a" = some ⟨"v", "r", 0⟩ :=
  ⟨C7_failure_preserves_snapshot [⟨"a", 3600, [], true⟩] (fun _ _ => none) 100 ["a"]
      [("a", ⟨"v", "r", 0⟩)] "a" (fun _ => rfl),
   rfl⟩

end Kiingo

namespace Kiingo

/-! ## Correctness of the spec-modelled Dependency Graph Builder -/

theorem except_bind_ok {ε α β : Type} (a : α) (f : α → Except ε β) :
    ((Except.ok a : Except ε α) >>= f) = f a := rfl

theorem except_bind_error {ε α β : Type} (e : ε) (f : α → Except ε β) :
    ((Except.error e : Except ε α) >>= f) = Except.error e := rfl

theorem foldlM_ok_sub {f : List String → String → Except BuildError (List String)}
    (hf : ∀ a x r, f a x = .ok r → ∃ Δ, r = a ++ Δ) :
    ∀ (l : List String) (a r : List String),
      List.foldlM f a l = .ok r → ∃ Δ, r = a ++ Δ := by
  intro l
  induction l with
  | nil =>
      intro a r h
      rw [List.foldlM_nil] at h
      injection h with h
      exact ⟨[], by simp [h]⟩
  | cons x xs ih =>
      intro a r h
      rw [List.foldlM_cons] at h
      cases hfa : f a x with
      | error e => rw [hfa, except_bind_error] at h; exact Except.noConfusion h
      | ok a₁ =>
          rw [hfa, except_bind_ok] at h
          rcases hf a x a₁ hfa with ⟨Δ₁, rfl⟩
          rcases ih _ r h with ⟨Δ₂, rfl⟩
          exact ⟨Δ₁ ++ Δ₂, by simp⟩

theorem foldlM_ok_mem {f : List String → String → Except BuildError (List String)}
    (hsub : ∀ a x r, f a x = .ok r → ∃ Δ, r = a ++ Δ)
    (hmem : ∀ a x r, f a x = .ok r → x ∈ r) :
    ∀ (l : List String) (a r : List String),
      List.foldlM f a l = .ok r → ∀ x, (x ∈ a ∨ x ∈ l) → x ∈ r := by
  intro l
  induction l with
  | nil =>
      intro a r h x hx
      rw [List.foldlM_nil] at h
      injection h with h
      rcases hx with hx | hx
      · rw [← h]; exact hx
      · cases hx
  | cons y ys ih =>
      intro a r h x hx
      rw [List.foldlM_cons] at h
      cases hfa : f a y with
      | error e => rw [hfa, except_bind_error] at h; exact Except.noConfusion h
      | ok a₁ =>
          rw [hfa, except_bind_ok] at h
          rcases hx with hx | hx
          · rcases hsub a y a₁ hfa with ⟨Δ, rfl⟩
            exact ih _ r h x (Or.inl (List.mem_append.mpr (Or.inl hx)))
          · rcases List.mem_cons.mp hx with rfl | hx'
            · exact ih _ r h x (Or.inl (hmem a x a₁ hfa))
            · exact ih _ r h x (Or.inr hx')

theorem foldlM_ok_pres {f : List String → String → Except BuildError (List String)}
    {P : List String → Prop}
    (hP : ∀ a x r, f a x = .ok r → P a → P r) :
    ∀ (l : List String) (a r : List String),
      List.foldlM f a l = .ok r → P a → P r := by
  intro l
  induction l with
  | nil =>
      intro a r h ha
      rw [List.foldlM_nil] at h
      injection h with h
      rw [← h]; exact ha
  | cons x xs ih =>
      intro a r h ha
      rw [List.foldlM_cons] at h
      cases hfa : f a x with
      | error e => rw [hfa, except_bind_error] at h; exact Except.noConfusion h
      | ok a₁ =>
          rw [hfa, except_bind_ok] at h
          exact ih _ r h (hP a x a₁ hfa ha)

theorem foldlM_ok_of_all {f : List String → String → Except BuildError (List String)}
    {l : List String} (hf : ∀ a x, x ∈ l → ∃ r, f a x = .ok r) :
    ∀ a, ∃ r, List.foldlM f a l = .ok r := by
  induction l with
  | nil => intro a; exact ⟨a, by rw [List.foldlM_nil]; rfl⟩
  | cons x xs ih =>
      intro a
      rcases hf a x (List.mem_cons_self x xs) with ⟨a₁, ha₁⟩
      rcases ih (fun a' x' hx' => hf a' x' (List.mem_cons_of_mem x hx')) a₁ with ⟨r, hr⟩
      exact ⟨r, by rw [List.foldlM_cons, ha₁, except_bind_ok]; exact hr⟩

end Kiingo

namespace Kiingo

theorem visitNode_ok_sub (defs : List MetricDefinition) :
    ∀ (fuel : Nat) (gray acc : List String) (n : String) (r : List String),
      visitNode defs fuel gray acc n = .ok r → ∃ Δ, r = acc ++ Δ := by
  intro fuel
  induction fuel with
  | zero => intro gray acc n r h; simp only [visitNode] at h; exact Except.noConfusion h
  | succ fuel ih =>
      intro gray acc n r h
      simp only [visitNode] at h
      split at h
      · injection h with h; exact ⟨[], by simp [← h]⟩
      · split at h
        · exact Except.noConfusion h
        · split at h
          · exact Except.noConfusion h
          · next d heq =>
              split at h
              · exact Except.noConfusion h
              · next acc₁ hfold =>
                  injection h with h
                  rcases foldlM_ok_sub (fun a x r' h' => ih (n :: gray) a x r' h')
                      d.dependencies acc acc₁ hfold with ⟨Δ, rfl⟩
                  exact ⟨Δ ++ [n], by simp [← h]⟩

theorem visitNode_ok_mem (defs : List MetricDefinition) :
    ∀ (fuel : Nat) (gray acc : List String) (n : String) (r : List String),
      visitNode defs fuel gray acc n = .ok r → n ∈ r := by
  intro fuel
  cases fuel with
  | zero => intro gray acc n r h; simp only [visitNode] at h; exact Except.noConfusion h
  | succ fuel =>
      intro gray acc n r h
      simp only [visitNode] at h
      split at h
      · next hacc =>
          injection h with h
          rw [← h]; exact hacc
      · split at h
        · exact Except.noConfusion h
        · split at h
          · exact Except.noConfusion h
          · next d heq =>
              split at h
              · exact Except.noConfusion h
              · next acc₁ hfold =>
                  injection h with h
                  rw [← h]
                  exact List.mem_append.mpr (Or.inr (List.mem_singleton.mpr rfl))

theorem topoSorted_nil (defs : List MetricDefinition) : TopoSorted defs [] := by
  intro i hi
  exact absurd hi (by simp)

theorem topoSorted_append (defs : List MetricDefinition) (l : List String) (x : String)
    (h : TopoSorted defs l)
    (hx : ∀ d, findMetricDef defs x = some d → ∀ dep ∈ d.dependencies, dep ∈ l) :
    TopoSorted defs (l ++ [x]) := by
  intro i hi d hfind dep hdep
  by_cases hil : i < l.length
  · have hget : (l ++ [x]).get ⟨i, hi⟩ = l.get ⟨i, hil⟩ := by
      rw [List.get_eq_getElem, List.get_eq_getElem, List.getElem_append]
      simp [hil]
    rw [hget] at hfind
    rw [List.take_append_of_le_length (le_of_lt hil)]
    exact h i hil d hfind dep hdep
  · have hieq : i = l.length := by
      have := hi
      simp only [List.length_append, List.length_singleton] at this
      omega
    subst hieq
    have hget : (l ++ [x]).get ⟨l.length, hi⟩ = x := by
      rw [List.get_eq_getElem]
      exact List.getElem_concat_length l x l.length rfl hi
    rw [hget] at hfind
    rw [List.take_append_of_le_length (le_refl _), List.take_length]
    exact hx d hfind dep hdep

theorem visitNode_ok_topo (defs : List MetricDefinition) :
    ∀ (fuel : Nat) (gray acc : List String) (n : String) (r : List String),
      visitNode defs fuel gray acc n = .ok r → TopoSorted defs acc → TopoSorted defs r := by
  intro fuel
  induction fuel with
  | zero => intro gray acc n r h _; simp only [visitNode] at h; exact Except.noConfusion h
  | succ fuel ih =>
      intro gray acc n r h hacc
      simp only [visitNode] at h
      split at h
      · injection h with h; rw [← h]; exact hacc
      · split at h
        · exact Except.noConfusion h
        · split at h
          · exact Except.noConfusion h
          · next d heq =>
              split at h
              · exact Except.noConfusion h
              · next acc₁ hfold =>
                  injection h with h
                  rw [← h]
                  have htopo₁ : TopoSorted defs acc₁ :=
                    foldlM_ok_pres (fun a x r' h' ha => ih (n :: gray) a x r' h' ha)
                      d.dependencies acc acc₁ hfold hacc
                  apply topoSorted_append defs acc₁ n htopo₁
                  intro e hfind₂ dep hdep
                  rw [heq] at hfind₂
                  injection hfind₂ with hfind₂
                  rw [← hfind₂] at hdep
                  exact foldlM_ok_mem
                    (fun a x r' h' => visitNode_ok_sub defs fuel (n :: gray) a x r' h')
                    (fun a x r' h' => visitNode_ok_mem defs fuel (n :: gray) a x r' h')
                    d.dependencies acc acc₁ hfold dep (Or.inr hdep)

end Kiingo

namespace Kiingo

theorem findMetricDef_of_mem_slugs (defs : List MetricDefinition) (n : String)
    (h : n ∈ slugsOf defs) :
    ∃ d, findMetricDef defs n = some d ∧ d ∈ defs ∧ d.slug = n := by
  cases hf : findMetricDef defs n with
  | some d =>
      exact ⟨d, rfl, List.mem_of_find?_eq_some hf,
        eq_of_beq (List.find?_some (p := fun d : MetricDefinition => d.slug == n) hf)⟩
  | none =>
      exfalso
      rcases List.mem_map.mp h with ⟨d₀, hd₀, hslug⟩
      have := List.find?_eq_none.mp hf d₀ hd₀
      apply this
      simp [hslug]

theorem whiteCount_cons_lt (defs : List MetricDefinition) (n : String) (gray : List String)
    (hmem : n ∈ slugsOf defs) (hn : n ∉ gray) :
    whiteCount defs (n :: gray) < whiteCount defs gray := by
  unfold whiteCount
  have hsub : List.Sublist ((slugsOf defs).filter (fun s => decide (s ∉ n :: gray)))
      ((slugsOf defs).filter (fun s => decide (s ∉ gray))) := by
    apply List.monotone_filter_right
    intro a ha
    simp only [decide_eq_true_eq, List.mem_cons, not_or] at ha ⊢
    exact ha.2
  rcases Nat.lt_or_ge (((slugsOf defs).filter (fun s => decide (s ∉ n :: gray))).length)
      (((slugsOf defs).filter (fun s => decide (s ∉ gray))).length) with hlt | hge
  · exact hlt
  · exfalso
    have heq := hsub.eq_of_length (Nat.le_antisymm hsub.length_le hge)
    have hn₂ : n ∈ (slugsOf defs).filter (fun s => decide (s ∉ gray)) := by
      simp only [List.mem_filter, decide_eq_true_eq]
      exact ⟨hmem, hn⟩
    rw [← heq] at hn₂
    have hnot : n ∉ n :: gray := of_decide_eq_true (List.mem_filter.mp hn₂).2
    exact hnot (List.mem_cons_self n gray)

theorem whiteCount_nil_le (defs : List MetricDefinition) :
    whiteCount defs [] ≤ defs.length := by
  unfold whiteCount
  calc ((slugsOf defs).filter _).length ≤ (slugsOf defs).length :=
        List.length_filter_le _ _
    _ = defs.length := List.length_map _ _

theorem visitNode_ok_of_acyclic (defs : List MetricDefinition)
    (hC : Closed defs) (hA : Acyclic defs) :
    ∀ (fuel : Nat) (gray acc : List String) (n : String),
      whiteCount defs gray < fuel →
      List.Chain' (fun a b => Edge defs b a) gray →
      (∀ g, gray.head? = some g → Edge defs g n) →
      n ∈ slugsOf defs →
      ∃ r, visitNode defs fuel gray acc n = .ok r := by
  intro fuel
  induction fuel with
  | zero => intro gray acc n hfuel; exact absurd hfuel (Nat.not_lt_zero _)
  | succ fuel ih =>
      intro gray acc n hfuel hchain hhang hslug
      by_cases hacc : n ∈ acc
      · exact ⟨acc, by simp only [visitNode]; rw [if_pos hacc]⟩
      · by_cases hgray : n ∈ gray
        · -- a gray hit would exhibit a dependency cycle, contradicting acyclicity
          exfalso
          apply hA
          rcases List.append_of_mem hgray with ⟨pre, suf, hsplit⟩
          rw [hsplit] at hchain
          have h1 : List.Chain' (fun a b => Edge defs b a) ((pre ++ [n]) ++ suf) := by
            rw [List.append_assoc, List.singleton_append]
            exact hchain
          have h2 := (List.chain'_append.mp h1).1
          have h3 : List.Chain' (Edge defs) ((pre ++ [n]).reverse) :=
            (List.chain'_reverse (l := pre ++ [n])).mpr h2
          have h4 : (pre ++ [n]).reverse = n :: pre.reverse := by simp
          rw [h4] at h3
          refine ⟨n, pre.reverse, ?_⟩
          have h5 : (n : String) :: (pre.reverse ++ [n]) = (n :: pre.reverse) ++ [n] := by simp
          rw [h5]
          apply List.chain'_append.mpr
          refine ⟨h3, List.chain'_singleton n, ?_⟩
          intro x hx y hy
          have hy' : y = n := by
            simp only [List.head?_cons, Option.mem_def] at hy
            injection hy with hy
            exact hy.symm
          rw [hy']
          have hlast : (n :: pre.reverse).getLast? = (pre ++ [n]).head? := by
            rw [← h4, List.getLast?_reverse]
          rw [hlast] at hx
          cases pre with
          | nil =>
              simp only [List.nil_append, List.head?_cons, Option.mem_def] at hx
              injection hx with hx
              subst hx
              apply hhang
              rw [hsplit]
              rfl
          | cons p₀ pre' =>
              simp only [List.cons_append, List.head?_cons, Option.mem_def] at hx
              injection hx with hx
              subst hx
              apply hhang
              rw [hsplit]
              rfl
        · rcases findMetricDef_of_mem_slugs defs n hslug with ⟨d, hfind, hd, hdslug⟩
          have hwc : whiteCount defs (n :: gray) < fuel := by
            have h₁ := whiteCount_cons_lt defs n gray hslug hgray
            omega
          have hfold : ∃ acc₁,
              d.dependencies.foldlM
                (fun a dep => visitNode defs fuel (n :: gray) a dep) acc = .ok acc₁ := by
            apply foldlM_ok_of_all
            intro a dep hdep
            apply ih (n :: gray) a dep hwc
            · apply List.Chain'.cons' hchain
              intro y hy
              exact hhang y hy
            · intro g hg
              simp only [List.head?_cons, Option.mem_def] at hg
              injection hg with hg
              subst hg
              exact ⟨d, hfind, hdep⟩
            · exact hC d hd dep hdep
          rcases hfold with ⟨acc₁, hfold⟩
          refine ⟨acc₁ ++ [n], ?_⟩
          simp only [visitNode]
          rw [if_neg hacc, if_neg hgray, hfind]
          show (match List.foldlM (fun a dep => visitNode defs fuel (n :: gray) a dep)
                  acc d.dependencies with
              | Except.error e => Except.error e
              | Except.ok acc₁ => Except.ok (acc₁ ++ [n])) = Except.ok (acc₁ ++ [n])
          rw [hfold]

end Kiingo

namespace Kiingo

theorem mem_orderedInsertBy (le : String → String → Bool) (a : String) :
    ∀ (l : List String) (x : String), x ∈ orderedInsertBy le a l ↔ x = a ∨ x ∈ l := by
  intro l
  induction l with
  | nil => intro x; simp [orderedInsertBy]
  | cons b bs ih =>
      intro x
      unfold orderedInsertBy
      split
      · simp
      · rw [List.mem_cons, ih x, List.mem_cons]
        tauto

theorem perm_orderedInsertBy (le : String → String → Bool) (a : String) :
    ∀ l : List String, (orderedInsertBy le a l).Perm (a :: l) := by
  intro l
  induction l with
  | nil => simp [orderedInsertBy]
  | cons b bs ih =>
      unfold orderedInsertBy
      split
      · exact List.Perm.refl _
      · exact (ih.cons b).trans (List.Perm.swap a b bs)

theorem perm_insertionSortBy (le : String → String → Bool) :
    ∀ l : List String, (insertionSortBy le l).Perm l := by
  intro l
  induction l with
  | nil => exact List.Perm.refl _
  | cons b bs ih =>
      unfold insertionSortBy
      exact (perm_orderedInsertBy le b _).trans (ih.cons b)

theorem mem_sortedSlugs (defs : List MetricDefinition) (x : String) :
    x ∈ sortedSlugs defs ↔ x ∈ slugsOf defs :=
  (perm_insertionSortBy slugLe (slugsOf defs)).mem_iff

theorem nodup_sortedSlugs (defs : List MetricDefinition)
    (h : (slugsOf defs).Nodup) : (sortedSlugs defs).Nodup :=
  (perm_insertionSortBy slugLe (slugsOf defs)).nodup_iff.mpr h

theorem indexOf_lt_of_mem_take :
    ∀ (l : List String) (i : Nat) (a : String), a ∈ l.take i → l.indexOf a < i := by
  intro l
  induction l with
  | nil => intro i a h; simp at h
  | cons x xs ih =>
      intro i a h
      cases i with
      | zero => simp at h
      | succ j =>
          rw [List.take_succ_cons] at h
          rcases List.mem_cons.mp h with rfl | h'
          · rw [List.indexOf_cons_self]; omega
          · by_cases hax : x = a
            · subst hax; rw [List.indexOf_cons_self]; omega
            · rw [List.indexOf_cons_ne _ hax]
              have := ih j a h'
              omega

theorem findMetricDef_self_of_nodup :
    ∀ (defs : List MetricDefinition), (slugsOf defs).Nodup →
      ∀ d ∈ defs, findMetricDef defs d.slug = some d := by
  intro defs
  induction defs with
  | nil => intro _ d hd; cases hd
  | cons e rest ih =>
      intro hnd d hd
      have hnd' : (slugsOf rest).Nodup ∧ e.slug ∉ slugsOf rest := by
        have : slugsOf (e :: rest) = e.slug :: slugsOf rest := rfl
        rw [this, List.nodup_cons] at hnd
        exact ⟨hnd.2, hnd.1⟩
      rcases List.mem_cons.mp hd with rfl | hd'
      · unfold findMetricDef
        rw [List.find?_cons_of_pos _ (by simp)]
      · have hne : e.slug ≠ d.slug := by
          intro hcontra
          apply hnd'.2
          rw [hcontra]
          exact List.mem_map.mpr ⟨d, hd', rfl⟩
        unfold findMetricDef at ih ⊢
        rw [List.find?_cons_of_neg _ (by simp [hne])]
        exact ih hnd'.1 d hd'

end Kiingo

namespace Kiingo

theorem foldlM_visit_nodeps (defs : List MetricDefinition)
    (hdeps : ∀ d ∈ defs, d.dependencies = []) :
    ∀ (ws acc : List String), (∀ n ∈ ws, n ∈ slugsOf defs) → ws.Nodup →
      (∀ n ∈ ws, n ∉ acc) →
      List.foldlM (fun a n => visitNode defs (defs.length + 1) [] a n) acc ws =
        .ok (acc ++ ws) := by
  intro ws
  induction ws with
  | nil => intro acc _ _ _; rw [List.foldlM_nil]; simp; rfl
  | cons n rest ih =>
      intro acc hslugs hnodup hdisj
      rw [List.foldlM_cons]
      have hstep : visitNode defs (defs.length + 1) [] acc n = .ok (acc ++ [n]) := by
        rcases findMetricDef_of_mem_slugs defs n (hslugs n (List.mem_cons_self n rest))
          with ⟨d, hfind, hd, _⟩
        simp only [visitNode]
        rw [if_neg (hdisj n (List.mem_cons_self n rest)), if_neg (List.not_mem_nil n), hfind]
        show (match List.foldlM (fun a dep => visitNode defs defs.length (n :: []) a dep)
                acc d.dependencies with
            | Except.error e => Except.error e
            | Except.ok acc₁ => Except.ok (acc₁ ++ [n])) = Except.ok (acc ++ [n])
        rw [hdeps d hd, List.foldlM_nil]
        rfl
      rw [hstep, except_bind_ok]
      rw [ih (acc ++ [n])
          (fun m hm => hslugs m (List.mem_cons_of_mem n hm))
          (List.nodup_cons.mp hnodup).2
          (fun m hm => by
            intro hcontra
            rcases List.mem_append.mp hcontra with h' | h'
            · exact hdisj m (List.mem_cons_of_mem n hm) h'
            · rcases List.mem_singleton.mp h' with rfl
              exact (List.nodup_cons.mp hnodup).1 hm)]
      simp

/-- A ranking certificate implies acyclicity of the dependency graph. -/
theorem acyclic_of_rank (defs : List MetricDefinition) (rank : String → Nat)
    (hrank : ∀ a b, Edge defs a b → rank b < rank a) : Acyclic defs := by
  rintro ⟨x, l, hchain⟩
  have key : ∀ (l' : List String) (a : String), List.Chain' (Edge defs) (a :: l') →
      ∀ y ∈ l', rank y < rank a := by
    intro l'
    induction l' with
    | nil => intro a _ y hy; cases hy
    | cons b bs ih =>
        intro a hch y hy
        have hab : Edge defs a b := (List.chain'_cons.mp hch).1
        have hbs := (List.chain'_cons.mp hch).2
        rcases List.mem_cons.mp hy with rfl | hy'
        · exact hrank a y hab
        · exact lt_trans (ih b hbs y hy') (hrank a b hab)
  have hx : x ∈ l ++ [x] := List.mem_append.mpr (Or.inr (List.mem_singleton.mpr rfl))
  exact absurd (key (l ++ [x]) x hchain x hx) (lt_irrefl _)

/-- C6 (spec-modelled): for every acyclic, reference-closed set of metric
definitions with unique slugs, the Dependency Graph Builder succeeds and
returns an ordering in which every dependency's index precedes its
consumer's index; the builder is a pure function (determinism is
definitional), and its tie-break is the lexical slug order: on a
dependency-free set the output is exactly the lexically sorted slug
list. -/
theorem C6_builder_topological_order :
    (∀ defs : List MetricDefinition, (slugsOf defs).Nodup → Closed defs → Acyclic defs →
      ∃ l, buildOrder defs = .ok l ∧
        ∀ d ∈ defs, ∀ dep ∈ d.dependencies, l.indexOf dep < l.indexOf d.slug) ∧
    (∀ defs : List MetricDefinition, (slugsOf defs).Nodup →
      (∀ d ∈ defs, d.dependencies = []) → buildOrder defs = .ok (sortedSlugs defs)) := by
  constructor
  · intro defs hnd hC hA
    have hok : ∃ l, buildOrder defs = .ok l := by
      unfold buildOrder
      apply foldlM_ok_of_all
      intro a n hn
      apply visitNode_ok_of_acyclic defs hC hA (defs.length + 1) [] a n
      · exact Nat.lt_succ_of_le (whiteCount_nil_le defs)
      · exact List.chain'_nil
      · intro g hg; exact absurd hg (by simp)
      · exact (mem_sortedSlugs defs n).mp hn
    rcases hok with ⟨l, hl⟩
    refine ⟨l, hl, ?_⟩
    have htopo : TopoSorted defs l := by
      unfold buildOrder at hl
      exact foldlM_ok_pres
        (fun a x r' h' ha => visitNode_ok_topo defs (defs.length + 1) [] a x r' h' ha)
        (sortedSlugs defs) [] l hl (topoSorted_nil defs)
    have hmem : ∀ x ∈ slugsOf defs, x ∈ l := by
      intro x hx
      unfold buildOrder at hl
      exact foldlM_ok_mem
        (fun a y r' h' => visitNode_ok_sub defs (defs.length + 1) [] a y r' h')
        (fun a y r' h' => visitNode_ok_mem defs (defs.length + 1) [] a y r' h')
        (sortedSlugs defs) [] l hl x (Or.inr ((mem_sortedSlugs defs x).mpr hx))
    intro d hd dep hdep
    have hslugmem : d.slug ∈ l := hmem d.slug (List.mem_map.mpr ⟨d, hd, rfl⟩)
    have hi : l.indexOf d.slug < l.length := List.indexOf_lt_length.mpr hslugmem
    have hget : l.get ⟨l.indexOf d.slug, hi⟩ = d.slug := by
      rw [List.get_eq_getElem]
      exact List.getElem_indexOf hi
    have hfind : findMetricDef defs (l.get ⟨l.indexOf d.slug, hi⟩) = some d := by
      rw [hget]
      exact findMetricDef_self_of_nodup defs hnd d hd
    exact indexOf_lt_of_mem_take l _ dep (htopo (l.indexOf d.slug) hi d hfind dep hdep)
  · intro defs hnd hdeps
    unfold buildOrder
    rw [foldlM_visit_nodeps defs hdeps (sortedSlugs defs) []
        (fun n hn => (mem_sortedSlugs defs n).mp hn)
        (nodup_sortedSlugs defs hnd)
        (fun n _ => List.not_mem_nil n)]
    simp

/-- C6 (witness): the builder property at the spec's own discovery-calls
scenario, with acyclicity certified by a two-level rank. -/
theorem C6_builder_witness :
    ∃ l, buildOrder
        [⟨"trailing-discovery-calls", 3600, [], true⟩,
         ⟨"discovery-call-summary", 3600,
           ["trailing-discovery-calls", "sales-pipeline-value"], true⟩,
         ⟨"sales-pipeline-value", 86400, [], true⟩] = .ok l ∧
      ∀ d ∈ [(⟨"trailing-discovery-calls", 3600, [], true⟩ : MetricDefinition),
             ⟨"discovery-call-summary", 3600,
               ["trailing-discovery-calls", "sales-pipeline-value"], true⟩,
             ⟨"sales-pipeline-value", 86400, [], true⟩],
        ∀ dep ∈ d.dependencies, l.indexOf dep < l.indexOf d.slug :=
  C6_builder_topological_order.1 _ (by decide) (by unfold Closed; decide)
    (acyclic_of_rank _ (fun s => if s = "discovery-call-summary" then 1 else 0)
      (by
        rintro a b ⟨d, hfind, hdep⟩
        have hd := List.mem_of_find?_eq_some hfind
        have hslug : d.slug = a :=
          eq_of_beq (List.find?_some (p := fun d : MetricDefinition => d.slug == a) hfind)
        have hcases : d = ⟨"trailing-discovery-calls", 3600, [], true⟩ ∨
            d = ⟨"discovery-call-summary", 3600,
              ["trailing-discovery-calls", "sales-pipeline-value"], true⟩ ∨
            d = ⟨"sales-pipeline-value", 86400, [], true⟩ := by
          simpa using hd
        rcases hcases with rfl | rfl | rfl
        · cases hdep
        · rcases List.mem_cons.mp hdep with rfl | hdep'
          · rw [← hslug]; decide
          · rcases List.mem_singleton.mp hdep' with rfl
            rw [← hslug]; decide
        · cases hdep))

end Kiingo

namespace Kiingo

/-! ## Counting lemmas for the fresh-id seeding analysis -/

theorem countSnapsFor_congr {db db' : DB} (x : String)
    (h : db'.metricSnapshots = db.metricSnapshots) :
    countSnapsFor db' x = countSnapsFor db x := by
  unfold countSnapsFor; rw [h]

theorem countBindsFor_congr {db db' : DB} (x : String)
    (h : db'.screenMetrics = db.screenMetrics) :
    countBindsFor db' x = countBindsFor db x := by
  unfold countBindsFor; rw [h]

theorem countSnaps_append_row (db : DB) (defs : List DefRow) (scr : List BindRow)
    (row : SnapRow) (x : String) :
    countSnapsFor ⟨defs, db.metricSnapshots ++ [row], scr⟩ x =
      countSnapsFor db x + (if row.metricId = x then 1 else 0) := by
  unfold countSnapsFor
  rw [List.filter_append, List.length_append]
  congr 1
  by_cases h : row.metricId = x
  · simp [List.filter_singleton, h]
  · simp [List.filter_singleton, h]

theorem countBinds_append_row (db : DB) (defs : List DefRow) (snaps : List SnapRow)
    (row : BindRow) (x : String) :
    countBindsFor ⟨defs, snaps, db.screenMetrics ++ [row]⟩ x =
      countBindsFor db x + (if row.metricId = x then 1 else 0) := by
  unfold countBindsFor
  rw [List.filter_append, List.length_append]
  congr 1
  by_cases h : row.metricId = x
  · simp [List.filter_singleton, h]
  · simp [List.filter_singleton, h]

theorem usesId_false_defId {db : DB} {x : String} (h : db.usesId x = false) :
    ∀ d ∈ db.metricDefinitions, d.id ≠ x := by
  intro d hd hcontra
  unfold DB.usesId at h
  rcases Bool.or_eq_false_iff.mp h with ⟨h₁, _⟩
  rcases Bool.or_eq_false_iff.mp h₁ with ⟨h₂, _⟩
  have := List.any_eq_false.mp h₂ d hd
  simp [hcontra] at this

theorem bindingExists_false_of_usesId {db : DB} {x : String}
    (h : db.usesId x = false) (sc : String) :
    db.bindingExists sc x = false := by
  unfold DB.usesId at h
  rcases Bool.or_eq_false_iff.mp h with ⟨h₁, _⟩
  rcases Bool.or_eq_false_iff.mp h₁ with ⟨_, h₃⟩
  unfold DB.bindingExists
  rw [List.any_eq_false]
  intro b hb hcontra
  apply List.any_eq_false.mp h₃ b hb
  simp only [Bool.and_eq_true] at hcontra
  exact hcontra.2

theorem insertMetric_defs_shape (style : SeedStyle) (m : MetricSpec)
    (a b bid now : String) (db : DB) :
    ∀ d ∈ (insertMetric style m a b bid now db).metricDefinitions,
      d ∈ db.metricDefinitions ∨ (d.id = a ∧ d.slug = m.slug) := by
  intro d hd
  cases style <;>
    · simp only [insertMetric] at hd
      rcases List.mem_append.mp hd with h' | h'
      · exact Or.inl h'
      · rcases List.mem_singleton.mp h' with rfl
        exact Or.inr ⟨rfl, rfl⟩

theorem insertMetric_count_snaps (style : SeedStyle) (m : MetricSpec)
    (a b bid now : String) (db : DB) (x : String) :
    countSnapsFor (insertMetric style m a b bid now db) x =
      countSnapsFor db x + (if a = x then 1 else 0) := by
  cases style
  · exact countSnaps_append_row db _ _ ⟨b, a, "completed", some now⟩ x
  · exact countSnaps_append_row db _ _ ⟨b, a, "success", none⟩ x

theorem insertMetric_count_binds (style : SeedStyle) (m : MetricSpec)
    (a b bid now : String) (db : DB) (x : String) :
    countBindsFor (insertMetric style m a b bid now db) x =
      countBindsFor db x + (if a = x then 1 else 0) := by
  cases style
  · exact countBinds_append_row db _ _ ⟨bid, m.screenId, a⟩ x
  · exact countBinds_append_row db _ _ ⟨bid, m.screenId, a⟩ x

theorem insertMetric_usesId_false (style : SeedStyle) (m : MetricSpec)
    (a b bid now : String) (db : DB) (x : String)
    (h : db.usesId x = false) (hax : a ≠ x) :
    (insertMetric style m a b bid now db).usesId x = false := by
  unfold DB.usesId at h
  rcases Bool.or_eq_false_iff.mp h with ⟨h₁, h₄⟩
  rcases Bool.or_eq_false_iff.mp h₁ with ⟨h₂, h₃⟩
  have hbeq : (a == x) = false := beq_eq_false_iff_ne.mpr hax
  cases style <;>
    · unfold DB.usesId insertMetric
      simp only [List.any_append, h₂, h₃, h₄]
      simp [hbeq]

end Kiingo

namespace Kiingo

theorem loopCount (style : SeedStyle) (ids : Nat → String) (now : String) :
    ∀ (specs : List MetricSpec) (c : Nat) (db db' : DB) (c' : Nat),
      runMetricLoop style ids now specs c db = (db', c') →
      InjOn ids c (3 * specs.length) →
      UnusedOn ids c (3 * specs.length) db →
      ((c ≤ c' ∧ c' ≤ c + 3 * specs.length) ∧
        (∀ d ∈ db'.metricDefinitions,
          d ∈ db.metricDefinitions ∨
            (d.slug ∈ specs.map MetricSpec.slug ∧
              (∃ k, c ≤ k ∧ k < c' ∧ ids k = d.id) ∧
              countSnapsFor db' d.id = countSnapsFor db d.id + 1 ∧
              countBindsFor db' d.id = countBindsFor db d.id + 1)) ∧
        (∀ x : String, (∀ k, c ≤ k → k < c' → ids k ≠ x) →
          countSnapsFor db' x = countSnapsFor db x ∧
          countBindsFor db' x = countBindsFor db x)) := by
  intro specs
  induction specs with
  | nil =>
      intro c db db' c' heq _ _
      injection heq with h₁ h₂
      subst h₁; subst h₂
      refine ⟨⟨le_refl c, by omega⟩, fun d hd => Or.inl hd, fun x _ => ⟨rfl, rfl⟩⟩
  | cons m rest ih =>
      intro c db db' c' heq hinj hunused
      unfold runMetricLoop at heq
      split at heq
      · -- slug already present: the iteration is a pure skip
        have hinj' : InjOn ids c (3 * rest.length) := by
          intro i j hi₁ hi₂ hj₁ hj₂
          apply hinj i j hi₁ (by simp only [List.length_cons]; omega) hj₁
            (by simp only [List.length_cons]; omega)
        have hunused' : UnusedOn ids c (3 * rest.length) db := by
          intro k hk₁ hk₂
          apply hunused k hk₁ (by simp only [List.length_cons]; omega)
        rcases ih c db db' c' heq hinj' hunused' with ⟨⟨hb₁, hb₂⟩, hchar, hframe⟩
        refine ⟨⟨hb₁, by simp only [List.length_cons]; omega⟩, ?_, hframe⟩
        intro d hd
        rcases hchar d hd with h | ⟨hslug, hk, hcounts⟩
        · exact Or.inl h
        · exact Or.inr ⟨List.mem_cons_of_mem _ hslug, hk, hcounts⟩
      · -- fresh slug: one metric inserted with ids c, c+1, c+2
        set db₁ := insertMetric style m (ids c) (ids (c + 1)) (ids (c + 2)) now db with hdb₁
        have hinj' : InjOn ids (c + 3) (3 * rest.length) := by
          intro i j hi₁ hi₂ hj₁ hj₂
          apply hinj i j (by omega) (by simp only [List.length_cons]; omega) (by omega)
            (by simp only [List.length_cons]; omega)
        have hcne : ∀ k, c + 3 ≤ k → k < c + 3 + 3 * rest.length → ids c ≠ ids k := by
          intro k hk₁ hk₂ hcontra
          have := hinj c k (le_refl c) (by simp only [List.length_cons]; omega) (by omega)
            (by simp only [List.length_cons]; omega) hcontra
          omega
        have hunused' : UnusedOn ids (c + 3) (3 * rest.length) db₁ := by
          intro k hk₁ hk₂
          apply insertMetric_usesId_false
          · exact hunused k (by omega) (by simp only [List.length_cons]; omega)
          · exact hcne k hk₁ hk₂
        rcases ih (c + 3) db₁ db' c' heq hinj' hunused' with ⟨⟨hb₁, hb₂⟩, hchar, hframe⟩
        have hc'₃ : c + 3 ≤ c' := hb₁
        refine ⟨⟨by omega, by simp only [List.length_cons] at *; omega⟩, ?_, ?_⟩
        · intro d hd
          rcases hchar d hd with h | ⟨hslug, ⟨k, hk₁, hk₂, hkid⟩, hcs, hcb⟩
          · rcases insertMetric_defs_shape style m (ids c) (ids (c + 1)) (ids (c + 2)) now db
                d h with h' | ⟨hid, hslug'⟩
            · exact Or.inl h'
            · refine Or.inr ⟨by rw [hslug']; exact List.mem_cons_self _ _,
                ⟨c, le_refl c, by omega, hid.symm⟩, ?_, ?_⟩
              · have hfr := (hframe d.id (fun k hk₁ hk₂ hcontra =>
                  hcne k hk₁ (by omega) (by rw [hcontra, hid]))).1
                rw [hfr, hdb₁, insertMetric_count_snaps, ← hid, if_pos rfl]
              · have hfr := (hframe d.id (fun k hk₁ hk₂ hcontra =>
                  hcne k hk₁ (by omega) (by rw [hcontra, hid]))).2
                rw [hfr, hdb₁, insertMetric_count_binds, ← hid, if_pos rfl]
          · have hne : ids c ≠ d.id := by
              rw [← hkid]
              exact hcne k hk₁ (by omega)
            refine Or.inr ⟨List.mem_cons_of_mem _ hslug, ⟨k, by omega, hk₂, hkid⟩, ?_, ?_⟩
            · rw [hcs, hdb₁, insertMetric_count_snaps, if_neg hne]
            · rw [hcb, hdb₁, insertMetric_count_binds, if_neg hne]
        · intro x hx
          have hcx : ids c ≠ x := hx c (le_refl c) (by omega)
          have hfr := hframe x (fun k hk₁ hk₂ => hx k (by omega) hk₂)
          constructor
          · rw [hfr.1, hdb₁, insertMetric_count_snaps, if_neg hcx]; omega
          · rw [hfr.2, hdb₁, insertMetric_count_binds, if_neg hcx]; omega

end Kiingo

namespace Kiingo

theorem rebindChecked_count_binds_frame {ids : Nat → String} :
    ∀ (rbs : List IdRebinding) (c : Nat) (db : DB) (x : String),
      (∀ rb ∈ rbs, rb.metricId ≠ x) →
      countBindsFor (runRebindChecked ids rbs c db).1 x = countBindsFor db x := by
  intro rbs
  induction rbs with
  | nil => intro c db x _; rfl
  | cons rb rest ih =>
      intro c db x h
      unfold runRebindChecked
      split
      · exact ih _ db x (fun rb' hrb' => h rb' (List.mem_cons_of_mem rb hrb'))
      · rw [ih _ _ x (fun rb' hrb' => h rb' (List.mem_cons_of_mem rb hrb'))]
        rw [countBinds_append_row db _ _ ⟨ids c, rb.screenId, rb.metricId⟩ x,
          if_neg (h rb (List.mem_cons_self rb rest))]
        omega

theorem rebindUnchecked_count_binds_frame {ids : Nat → String} :
    ∀ (rbs : List SlugRebinding) (c : Nat) (db : DB) (x : String),
      (∀ d ∈ db.metricDefinitions, d.slug ∈ rbs.map SlugRebinding.slug → d.id ≠ x) →
      countBindsFor (runRebindUnchecked ids rbs c db).1 x = countBindsFor db x := by
  intro rbs
  induction rbs with
  | nil => intro c db x _; rfl
  | cons rb rest ih =>
      intro c db x h
      unfold runRebindUnchecked
      split
      · exact ih _ db x (fun d hd hslug => h d hd (List.mem_cons_of_mem _ hslug))
      · next d heq =>
          rw [ih (c + 1)
            (DB.mk db.metricDefinitions db.metricSnapshots
              (db.screenMetrics ++ [BindRow.mk (ids c) rb.screenId d.id])) x
            (fun e he hslug => h e he (List.mem_cons_of_mem _ hslug))]
          have hdx : d.id ≠ x := by
            apply h d (List.mem_of_find?_eq_some heq)
            have hslug : d.slug = rb.slug :=
              eq_of_beq (List.find?_some (p := fun e : DefRow => e.slug == rb.slug) heq)
            rw [hslug]
            exact List.mem_map.mpr ⟨rb, List.mem_cons_self rb rest, rfl⟩
          rw [countBinds_append_row db _ _ ⟨ids c, rb.screenId, d.id⟩ x, if_neg hdx]
          omega

theorem singleSeed_new_metric (cfg : MetricSpec) (ids : Nat → String)
    (now : String) (db : DB) (hfresh : db.usesId (ids 0) = false) :
    ∀ d ∈ (runSingleSeed cfg ids now db).metricDefinitions, d ∉ db.metricDefinitions →
      countSnapsFor (runSingleSeed cfg ids now db) d.id = countSnapsFor db d.id + 1 ∧
      countBindsFor (runSingleSeed cfg ids now db) d.id = countBindsFor db d.id + 1 := by
  intro d hd hnew
  cases h : db.findDefBySlug cfg.slug with
  | some e =>
      exfalso
      apply hnew
      have hrun : runSingleSeed cfg ids now db = db.bindStep cfg.screenId e.id (ids 0) := by
        simp only [runSingleSeed, h]
      rw [hrun, bindStep_defs] at hd
      exact hd
  | none =>
      have hrun : runSingleSeed cfg ids now db =
          DB.bindStep
            ⟨db.metricDefinitions ++
               [⟨ids 0, cfg.slug, cfg.ttl, some true, some cfg.dependencies⟩],
             db.metricSnapshots ++ [⟨ids 1, ids 0, "completed", some now⟩],
             db.screenMetrics⟩ cfg.screenId (ids 0) (ids 2) := by
        simp only [runSingleSeed, h]
      have hdid : d = ⟨ids 0, cfg.slug, cfg.ttl, some true, some cfg.dependencies⟩ := by
        rw [hrun, bindStep_defs] at hd
        rcases List.mem_append.mp hd with h' | h'
        · exact absurd h' hnew
        · exact List.mem_singleton.mp h'
      have hidd : d.id = ids 0 := by rw [hdid]
      have hbe : ¬ ((DB.mk
          (db.metricDefinitions ++
            [⟨ids 0, cfg.slug, cfg.ttl, some true, some cfg.dependencies⟩])
          (db.metricSnapshots ++ [⟨ids 1, ids 0, "completed", some now⟩])
          db.screenMetrics).bindingExists cfg.screenId (ids 0) = true) := by
      
        have hfe : db.bindingExists cfg.screenId (ids 0) = false :=
          bindingExists_false_of_usesId hfresh cfg.screenId
        unfold DB.bindingExists at hfe ⊢
        rw [hfe]
        exact Bool.false_ne_true
      constructor
      · rw [hrun, countSnapsFor_congr d.id (bindStep_snaps _ _ _ _)]
        rw [countSnaps_append_row db _ _ ⟨ids 1, ids 0, "completed", some now⟩ d.id,
          if_pos hidd.symm]
      · rw [hrun]
        unfold DB.bindStep
        rw [if_neg hbe]
        rw [countBinds_append_row db _ _ ⟨ids 2, cfg.screenId, ids 0⟩ d.id,
          if_pos hidd.symm]

end Kiingo

namespace Kiingo

/-- C10: whenever a seed script inserts a new `metric_definitions` row in a
run with fresh ids, that same run adds exactly one `metric_snapshots` row
and exactly one `screen_metrics` binding referencing the new metric's id,
so no script-created metric is left without an initial snapshot or
without a screen binding. -/
theorem C10_new_metric_fully_seeded (s : Script) (hseed : s.isSeedScript = true)
    (ids : Nat → String) (now : String) (db : DB) (hfresh : FreshIds ids db) :
    ∀ d ∈ (Script.run s ids now db).metricDefinitions, d ∉ db.metricDefinitions →
      countSnapsFor (Script.run s ids now db) d.id = countSnapsFor db d.id + 1 ∧
      countBindsFor (Script.run s ids now db) d.id = countBindsFor db d.id + 1 := by
  obtain ⟨hinjB, hfreshB⟩ := hfresh
  have hinjk : ∀ k, k ≤ idBudget → InjOn ids 0 k := by
    intro k hk i j _ hi _ hj hcontra
    exact hinjB i (by omega) j (by omega) hcontra
  have hunusedk : ∀ k, k ≤ idBudget → UnusedOn ids 0 k db := by
    intro k hk i _ hi
    exact (hfreshB i (by omega)).1
  cases s
  case bindDiscoveryCallsScreen => exact absurd hseed (by decide)
  case seedDiscoveryCalls =>
      intro d hd hnew
      simp only [Script.run] at hd ⊢
      rcases loopCount .standard ids now discoveryCallsMetrics 0 db
          (runMetricLoop .standard ids now discoveryCallsMetrics 0 db).1
          (runMetricLoop .standard ids now discoveryCallsMetrics 0 db).2 rfl
          (hinjk _ (by decide)) (hunusedk _ (by decide)) with ⟨_, hchar, _⟩
      rcases hchar d hd with h | ⟨_, _, hcs, hcb⟩
      · exact absurd h hnew
      · exact ⟨hcs, hcb⟩
  case seedCeoDashboardBatch2 =>
      intro d hd hnew
      simp only [Script.run] at hd ⊢
      rcases loopCount .standard ids now batch2Metrics 0 db
          (runMetricLoop .standard ids now batch2Metrics 0 db).1
          (runMetricLoop .standard ids now batch2Metrics 0 db).2 rfl
          (hinjk _ (by decide)) (hunusedk _ (by decide)) with ⟨_, hchar, _⟩
      rcases hchar d hd with h | ⟨_, _, hcs, hcb⟩
      · exact absurd h hnew
      · exact ⟨hcs, hcb⟩
  case seedCeoDashboard =>
      intro d hd hnew
      simp only [Script.run] at hd ⊢
      rw [rebindChecked_defs ceoRebindings
          (runMetricLoop .standard ids now ceoDashboardMetrics 0 db).2
          (runMetricLoop .standard ids now ceoDashboardMetrics 0 db).1] at hd
      rcases loopCount .standard ids now ceoDashboardMetrics 0 db
          (runMetricLoop .standard ids now ceoDashboardMetrics 0 db).1
          (runMetricLoop .standard ids now ceoDashboardMetrics 0 db).2 rfl
          (hinjk _ (by decide)) (hunusedk _ (by decide)) with ⟨⟨hb₁, hb₂⟩, hchar, _⟩
      rcases hchar d hd with h | ⟨hslug, ⟨k, hk₀, hkc, hkid⟩, hcs, hcb⟩
      · exact absurd h hnew
      have hlen : ceoDashboardMetrics.length = 16 := rfl
      have hk60 : k < idBudget := by
        have : idBudget = 60 := rfl
        omega
      constructor
      · rw [countSnapsFor_congr d.id (rebindChecked_snaps _ _ _)]
        exact hcs
      · rw [rebindChecked_count_binds_frame ceoRebindings _ _ d.id ?_]
        · exact hcb
        · intro rb hrb hcontra
          apply (hfreshB k hk60).2
          rw [hkid, ← hcontra]
          exact List.mem_map.mpr ⟨rb, hrb, rfl⟩
  case seedCeoDashboardBatch3 =>
      intro d hd hnew
      simp only [Script.run] at hd ⊢
      rw [rebindUnchecked_defs batch3Rebindings
          (runMetricLoop .batch3 ids now batch3Metrics 0 db).2
          (runMetricLoop .batch3 ids now batch3Metrics 0 db).1] at hd
      rcases loopCount .batch3 ids now batch3Metrics 0 db
          (runMetricLoop .batch3 ids now batch3Metrics 0 db).1
          (runMetricLoop .batch3 ids now batch3Metrics 0 db).2 rfl
          (hinjk _ (by decide)) (hunusedk _ (by decide)) with ⟨⟨hb₁, hb₂⟩, hchar, _⟩
      rcases hchar d hd with h | ⟨hslug, ⟨k, hk₀, hkc, hkid⟩, hcs, hcb⟩
      · exact absurd h hnew
      have hlen : batch3Metrics.length = 7 := rfl
      have hk60 : k < idBudget := by
        have : idBudget = 60 := rfl
        omega
      constructor
      · rw [countSnapsFor_congr d.id (rebindUnchecked_snaps _ _ _)]
        exact hcs
      · rw [rebindUnchecked_count_binds_frame batch3Rebindings _ _ d.id ?_]
        · exact hcb
        · intro e he hslug₂ hcontra
          rcases hchar e he with hin | ⟨hslug₃, _, _, _⟩
          · exact usesId_false_defId (hfreshB k hk60).1 e hin (by rw [hcontra, ← hkid])
          · have hdisj : ∀ a, a ∈ batch3Metrics.map MetricSpec.slug →
                a ∉ batch3Rebindings.map SlugRebinding.slug := by decide
            exact hdisj e.slug hslug₃ hslug₂
  all_goals
    intro d hd hnew
  all_goals
    simp only [Script.run, Script.singleConfig] at hd ⊢
  all_goals
    exact singleSeed_new_metric _ ids now db ((hfreshB 0 (by decide)).1) d hd hnew

end Kiingo

namespace Kiingo

/-- C10 (witness): seed_discovery_calls.py on the empty database with a
fresh id supply — the new `trailing-discovery-calls` definition gets
exactly one snapshot and one binding. -/
theorem C10_new_metric_fully_seeded_witness :
    countSnapsFor
        (Script.run .seedDiscoveryCalls (fun n => "u" ++ toString n) "t" DB.empty)
        (DefRow.mk "u0" "trailing-discovery-calls" 3600 (some true) (some [])).id =
      countSnapsFor DB.empty
        (DefRow.mk "u0" "trailing-discovery-calls" 3600 (some true) (some [])).id + 1 ∧
    countBindsFor
        (Script.run .seedDiscoveryCalls (fun n => "u" ++ toString n) "t" DB.empty)
        (DefRow.mk "u0" "trailing-discovery-calls" 3600 (some true) (some [])).id =
      countBindsFor DB.empty
        (DefRow.mk "u0" "trailing-discovery-calls" 3600 (some true) (some [])).id + 1 :=
  C10_new_metric_fully_seeded .seedDiscoveryCalls (by decide)
    (fun n => "u" ++ toString n) "t" DB.empty ⟨by decide, by decide⟩
    (DefRow.mk "u0" "trailing-discovery-calls" 3600 (some true) (some []))
    (by decide) (by decide)

end Kiingo

namespace Kiingo

/-- C8 (witness): the shared path constant at a concrete script. -/
theorem C8_db_path_uniform_witness :
    Script.dbPath .seedDiscoveryCalls =
      "~/Library/Application Support/com.kiingo.localcli/state.sqlite" :=
  C8_db_path_uniform .seedDiscoveryCalls

end Kiingo
